import Mathlib

/-!
Verification of the host-function marshalling layer of the extism python-sdk
(`src/extism/extism.py`).

The development shallowly embeds the type-mapping registry (`_map_arg`,
`_map_ret`), the signature inferencer and trampoline builder
(`TypeInferredFunction`), the registry/dispatch mechanism (`host_fn`,
`handle_args`), the guest-memory facade (`CurrentPlugin`), the wire value
conversions (`_convert_value`, `_convert_output`) and `Plugin.call`.

Python exceptions are modelled with `Except PyErr`; Python runtime values with
the inductive `PyVal`; guest memory with an explicit allocation map `MemState`.
Machine-level 64-bit payloads never overflow in the verified paths, so wire
scalars carry unbounded `Int`/`Rat` payloads tagged with their C union member.
-/

/-- Python exceptions raised by the code paths under verification. -/
inductive PyErr where
  | typeError (msg : String)
  | attributeError (cls attr : String)
  | overflowError
  | indexError
  | valueError (msg : String)
  | extismError (msg : String)
  | jsonDecodeError
  | unicodeDecodeError
deriving DecidableEq, Repr

/-- The `ValType` enumeration from the source (`extism.py:108`).  `PTR` is an
alias for `I64` (both have `value = 1`), so only `I64` is represented. -/
inductive ValType where
  | I32
  | I64
  | F32
  | F64
  | V128
  | FUNC_REF
  | EXTERN_REF
deriving DecidableEq, Repr

/-- The numeric `.value` of each `ValType` enum member, as assigned in the
source (`I32 = 0`, `PTR = I64 = 1`, `F32 = 2`, `F64 = 3`, ...). -/
def ValType.value : ValType → Nat
  | .I32 => 0
  | .I64 => 1
  | .F32 => 2
  | .F64 => 3
  | .V128 => 4
  | .FUNC_REF => 5
  | .EXTERN_REF => 6

/-- Python runtime values crossing the marshalling layer: scalars, text,
byte strings, tuples/lists/dicts, opaque class instances (`obj`, used for
pickled values) and the per-call `CurrentPlugin` handle that the trampoline
may prepend to the argument list.  Float payloads are carried as `Rat`; the
verified code only moves them, never computes with them. -/
inductive PyVal where
  | none
  | bool (b : Bool)
  | int (n : Int)
  | float (q : Rat)
  | str (s : String)
  | bytes (b : List Nat)
  | tuple (xs : List PyVal)
  | list (xs : List PyVal)
  | dict (kvs : List (String × PyVal))
  | obj (cls : String) (fields : List (String × PyVal))
  | curPlugin
deriving Repr

/-- `type(v).__name__`, as it appears in Python error messages. -/
def PyVal.typeName : PyVal → String
  | .none => "NoneType"
  | .bool _ => "bool"
  | .int _ => "int"
  | .float _ => "float"
  | .str _ => "str"
  | .bytes _ => "bytes"
  | .tuple _ => "tuple"
  | .list _ => "list"
  | .dict _ => "dict"
  | .obj c _ => c
  | .curPlugin => "CurrentPlugin"

/-- The `Val` class (`extism.py:125`): a low-level value with its `ValType`.
Instances have attributes `t` and `value` (set in `__init__`). -/
structure Val where
  t : ValType
  value : PyVal
deriving Repr

/-- The attribute names defined on class `Val` in the source: the instance
attributes `t` and `value` set by `__init__`, and the methods `__init__`,
`__repr__` and `_assign` defined in the class body (`extism.py:125-138`).
There is no attribute named `assign`. -/
def valClassAttrs : List String := ["t", "value", "__init__", "__repr__", "_assign"]

/-- The expression `slot.assign(value)` as written in `_map_ret`
(`extism.py:330,333,336`).  Python resolves the attribute `assign` against the
instance and the class `Val`; the class defines `_assign` but not `assign`, so
the lookup raises `AttributeError` before any call happens.  (Had the
attribute existed, it would mutate `slot.value`, which is what the dead branch
records.) -/
def val_assign (slot : Val) (v : PyVal) : Except PyErr Val :=
  if valClassAttrs.contains "assign" then .ok { slot with value := v }
  else .error (.attributeError "Val" "assign")

/-- One member of the C union inside an `ExtismVal`: which member was written,
together with its payload. The verified call paths always read back the member
that was written. -/
inductive WireScalar where
  | i32 (n : Int)
  | i64 (n : Int)
  | f32 (q : Rat)
  | f64 (q : Rat)
deriving DecidableEq, Repr

/-- Reading an integer union member (`x.v.i32` / `x.v.i64`).  A cross-kind
read would reinterpret raw bits in C; it never happens on the verified paths
and is mapped to `0`. -/
def WireScalar.memInt : WireScalar → Int
  | .i32 n => n
  | .i64 n => n
  | .f32 _ => 0
  | .f64 _ => 0

/-- Reading a float union member (`x.v.f32` / `x.v.f64`); cf. `memInt`. -/
def WireScalar.memRat : WireScalar → Rat
  | .f32 q => q
  | .f64 q => q
  | .i32 _ => 0
  | .i64 _ => 0

/-- A raw `ExtismVal` struct from the C ABI: a numeric type tag `t`
(0 = I32, 1 = I64, 2 = F32, 3 = F64) and the payload union `v`.  The struct
has exactly the fields `t` and `v`; accessing any other field raises
`AttributeError` in cffi. -/
structure CVal where
  t : Nat
  v : WireScalar
deriving DecidableEq, Repr

/-- `_convert_value` (`extism.py:619-628`).  The source reads, in order,
`x.t == 0`, `x.t == 1`, `x.t == 2`, and then `x.y == 3` — a slip for `x.t`.
The struct has no field `y`, so for every tag other than 0, 1 or 2
(in particular tag 3, an F64 input) evaluating `x.y` raises `AttributeError`
before the comparison can happen. -/
def convert_value (x : CVal) : Except PyErr Val :=
  if x.t = 0 then .ok { t := .I32, value := .int x.v.memInt }
  else if x.t = 1 then .ok { t := .I64, value := .int x.v.memInt }
  else if x.t = 2 then .ok { t := .F32, value := .float x.v.memRat }
  else .error (.attributeError "ExtismVal" "y")

/-- Python `==` between the C struct's integer tag and a `ValType` enum
member, as written at `extism.py:639,641` (`x.t == ValType.F32`,
`x.t == ValType.F64`).  A plain `Enum` member never compares equal to an
`int`, so the comparison is always false. -/
def intEqValType (_ : Nat) (_ : ValType) : Bool := false

/-- Python `int(v)` on the values the layer moves: exact for `int`, `bool`
and `float` (truncation toward zero); `TypeError` for everything else. -/
def pyInt : PyVal → Except PyErr Int
  | .int n => .ok n
  | .bool b => .ok (if b then 1 else 0)
  | .float q => .ok (q.num / (q.den : Int))
  | v => .error (.typeError ("int() argument incompatible: " ++ v.typeName))

/-- `_convert_output` (`extism.py:631-644`): write the Python-level `Val` back
into the caller-owned C `ExtismVal`.  The first guard compares `v.t.value`
with the raw tag; then the source tests `v.t == ValType.I32`,
`v.t == ValType.I64`, and then — another slip — `x.t == ValType.F32` and
`x.t == ValType.F64`, where `x.t` is the *integer* tag, so both float branches
are unreachable (`intEqValType`) and float outputs fall through to the
"Unsupported return type" error. -/
def convert_output (x : CVal) (v : Val) : Except PyErr CVal :=
  if v.t.value ≠ x.t then
    .error (.extismError ("Output type mismatch, got " ++ (repr v.t).pretty ++
      " but expected " ++ toString x.t))
  else if v.t = .I32 then do
    let n ← pyInt v.value
    .ok { x with v := .i32 n }
  else if v.t = .I64 then do
    let n ← pyInt v.value
    .ok { x with v := .i64 n }
  else if intEqValType x.t .F32 then
    .error (.extismError "unreachable")
  else if intEqValType x.t .F64 then
    .error (.extismError "unreachable")
  else .error (.extismError ("Unsupported return type: " ++ toString x.t))

/-! ### UTF-8 (Python `str.encode()` / `bytes.decode()`)

`CurrentPlugin.return_string` encodes text with `s.encode()` and
`CurrentPlugin.input_string` decodes with `bytes.decode()`; both default to
UTF-8.  The codec is modelled bit-exactly on unicode scalar values. -/

/-- UTF-8 encoding of one unicode scalar value. -/
def utf8EncodeChar (c : Nat) : List Nat :=
  if c < 128 then [c]
  else if c < 2048 then [192 + c / 64, 128 + c % 64]
  else if c < 65536 then [224 + c / 4096, 128 + c / 64 % 64, 128 + c % 64]
  else [240 + c / 262144, 128 + c / 4096 % 64, 128 + c / 64 % 64, 128 + c % 64]

/-- `s.encode()`: UTF-8 bytes of a Python string. -/
def utf8Encode (s : String) : List Nat :=
  (s.data.map (fun ch => utf8EncodeChar ch.toNat)).flatten


/-- Decode one UTF-8 sequence at the front of a byte string: the unicode
scalar value and the number of bytes consumed.  Rejects continuation errors,
overlong forms, surrogates and out-of-range values, as Python's
`bytes.decode()` does. -/
def utf8DecodeOne (l : List Nat) : Except PyErr (Nat × Nat) :=
  match l with
  | [] => .error .unicodeDecodeError
  | b0 :: rest =>
    if b0 < 128 then .ok (b0, 1)
    else if b0 < 194 then .error .unicodeDecodeError
    else if b0 < 224 then
      match rest with
      | b1 :: _ =>
        if 128 ≤ b1 ∧ b1 < 192 then .ok ((b0 - 192) * 64 + (b1 - 128), 2)
        else .error .unicodeDecodeError
      | [] => .error .unicodeDecodeError
    else if b0 < 240 then
      match rest with
      | b1 :: b2 :: _ =>
        if 128 ≤ b1 ∧ b1 < 192 ∧ 128 ≤ b2 ∧ b2 < 192 then
          let c := (b0 - 224) * 4096 + (b1 - 128) * 64 + (b2 - 128)
          if 2048 ≤ c ∧ ¬(55296 ≤ c ∧ c < 57344) then .ok (c, 3)
          else .error .unicodeDecodeError
        else .error .unicodeDecodeError
      | _ => .error .unicodeDecodeError
    else if b0 < 245 then
      match rest with
      | b1 :: b2 :: b3 :: _ =>
        if 128 ≤ b1 ∧ b1 < 192 ∧ 128 ≤ b2 ∧ b2 < 192 ∧ 128 ≤ b3 ∧ b3 < 192 then
          let c := (b0 - 240) * 262144 + (b1 - 128) * 4096 + (b2 - 128) * 64 + (b3 - 128)
          if 65536 ≤ c ∧ c < 1114112 then .ok (c, 4)
          else .error .unicodeDecodeError
        else .error .unicodeDecodeError
      | _ => .error .unicodeDecodeError
    else .error .unicodeDecodeError

/-- Strict UTF-8 decoding of a whole byte string to unicode scalar values. -/
def utf8DecodeAux (l : List Nat) : Except PyErr (List Nat) :=
  match l with
  | [] => .ok []
  | b0 :: rest => do
    let ck ← utf8DecodeOne (b0 :: rest)
    let cs ← utf8DecodeAux (rest.drop (ck.2 - 1))
    .ok (ck.1 :: cs)
termination_by l.length
decreasing_by
  simp only [List.length_cons, List.length_drop]
  omega

/-- `b.decode()`: UTF-8 decoding of bytes to a Python string. -/
def utf8Decode (bs : List Nat) : Except PyErr String :=
  (utf8DecodeAux bs).map (fun cs => String.mk (cs.map Char.ofNat))

/-- Unicode scalar values (what a `Char` may hold). -/
def IsScalarCP (c : Nat) : Prop := c < 55296 ∨ (57344 ≤ c ∧ c < 1114112)

theorem char_toNat_scalar (ch : Char) : IsScalarCP ch.toNat := by
  show IsScalarCP ch.val.toNat
  rcases ch.valid with h | ⟨h1, h2⟩
  · exact Or.inl h
  · exact Or.inr ⟨by omega, h2⟩

/-- `utf8DecodeOne` recovers the scalar value and length of one encoded
character. -/
theorem utf8DecodeOne_encodeChar (c : Nat) (h : IsScalarCP c) (rest : List Nat) :
    utf8DecodeOne (utf8EncodeChar c ++ rest) = .ok (c, (utf8EncodeChar c).length) := by
  rcases Nat.lt_or_ge c 128 with h1 | h1
  · rw [show utf8EncodeChar c = [c] from by rw [utf8EncodeChar, if_pos h1]]
    simp only [List.cons_append, List.nil_append, utf8DecodeOne, List.length_cons,
      List.length_nil]
    rw [if_pos h1]
  · rcases Nat.lt_or_ge c 2048 with h2 | h2
    · rw [show utf8EncodeChar c = [192 + c / 64, 128 + c % 64] from by
        rw [utf8EncodeChar, if_neg (by omega), if_pos h2]]
      have hdlo : 2 ≤ c / 64 := Nat.le_div_iff_mul_le (by omega) |>.mpr (by omega)
      have hdhi : c / 64 < 32 := Nat.div_lt_of_lt_mul (by omega)
      have hm : c % 64 < 64 := Nat.mod_lt _ (by omega)
      simp only [List.cons_append, List.nil_append, utf8DecodeOne, List.length_cons,
        List.length_nil]
      rw [if_neg (by omega), if_neg (by omega), if_pos (by omega : 192 + c / 64 < 224),
        if_pos (by omega : 128 ≤ 128 + c % 64 ∧ 128 + c % 64 < 192)]
      have e : (192 + c / 64 - 192) * 64 + (128 + c % 64 - 128) = c := by omega
      rw [e]
    · rcases Nat.lt_or_ge c 65536 with h3 | h3
      · rw [show utf8EncodeChar c = [224 + c / 4096, 128 + c / 64 % 64, 128 + c % 64] from by
          rw [utf8EncodeChar, if_neg (by omega), if_neg (by omega), if_pos h3]]
        have hd : c / 4096 < 16 := Nat.div_lt_of_lt_mul (by omega)
        have hm1 : c / 64 % 64 < 64 := Nat.mod_lt _ (by omega)
        have hm2 : c % 64 < 64 := Nat.mod_lt _ (by omega)
        simp only [List.cons_append, List.nil_append, utf8DecodeOne, List.length_cons,
          List.length_nil]
        rw [if_neg (by omega), if_neg (by omega), if_neg (by omega),
          if_pos (by omega : 224 + c / 4096 < 240),
          if_pos (by omega : 128 ≤ 128 + c / 64 % 64 ∧ 128 + c / 64 % 64 < 192 ∧
            128 ≤ 128 + c % 64 ∧ 128 + c % 64 < 192)]
        have e : (224 + c / 4096 - 224) * 4096 + (128 + c / 64 % 64 - 128) * 64 +
            (128 + c % 64 - 128) = c := by omega
        rw [e]
        have hsur : ¬(55296 ≤ c ∧ c < 57344) := by
          rcases h with hlt | ⟨hge, _⟩
          · omega
          · omega
        rw [if_pos ⟨h2, hsur⟩]
      · have hcap : c < 1114112 := by
          rcases h with hlt | ⟨_, hcap⟩
          · omega
          · exact hcap
        rw [show utf8EncodeChar c =
            [240 + c / 262144, 128 + c / 4096 % 64, 128 + c / 64 % 64, 128 + c % 64] from by
          rw [utf8EncodeChar, if_neg (by omega), if_neg (by omega), if_neg (by omega)]]
        have hd : c / 262144 < 5 := Nat.div_lt_of_lt_mul (by omega)
        have hm1 : c / 4096 % 64 < 64 := Nat.mod_lt _ (by omega)
        have hm2 : c / 64 % 64 < 64 := Nat.mod_lt _ (by omega)
        have hm3 : c % 64 < 64 := Nat.mod_lt _ (by omega)
        simp only [List.cons_append, List.nil_append, utf8DecodeOne, List.length_cons,
          List.length_nil]
        rw [if_neg (by omega), if_neg (by omega), if_neg (by omega), if_neg (by omega),
          if_pos (by omega : 240 + c / 262144 < 245),
          if_pos (by omega : 128 ≤ 128 + c / 4096 % 64 ∧ 128 + c / 4096 % 64 < 192 ∧
            128 ≤ 128 + c / 64 % 64 ∧ 128 + c / 64 % 64 < 192 ∧
            128 ≤ 128 + c % 64 ∧ 128 + c % 64 < 192)]
        have e : (240 + c / 262144 - 240) * 262144 + (128 + c / 4096 % 64 - 128) * 4096 +
            (128 + c / 64 % 64 - 128) * 64 + (128 + c % 64 - 128) = c := by omega
        rw [e]
        rw [if_pos (by omega : 65536 ≤ c ∧ c < 1114112)]

/-- The encoding of one character is between 1 and 4 bytes and never empty. -/
theorem utf8EncodeChar_ne_nil (c : Nat) : utf8EncodeChar c ≠ [] := by
  rw [utf8EncodeChar]
  split
  · simp
  · split
    · simp
    · split
      · simp
      · simp

/-- Decoding inverts encoding one character at a time. -/
theorem utf8DecodeAux_encodeChar (c : Nat) (h : IsScalarCP c) (rest : List Nat) :
    utf8DecodeAux (utf8EncodeChar c ++ rest) =
      (utf8DecodeAux rest).map (fun cs => c :: cs) := by
  obtain ⟨b0, tl, he⟩ : ∃ b0 tl, utf8EncodeChar c = b0 :: tl := by
    cases hh : utf8EncodeChar c with
    | nil => exact absurd hh (utf8EncodeChar_ne_nil c)
    | cons a l => exact ⟨a, l, rfl⟩
  have hone := utf8DecodeOne_encodeChar c h rest
  rw [he] at hone ⊢
  rw [List.cons_append, utf8DecodeAux]
  rw [List.cons_append] at hone
  rw [hone]
  have hdrop : (tl ++ rest).drop ((b0 :: tl).length - 1) = rest := by
    simp only [List.length_cons, Nat.add_sub_cancel]
    rw [List.drop_append_of_le_length (by omega)]
    simp
  simp only [List.length_cons] at hdrop ⊢
  show (do
    let cs ← utf8DecodeAux ((tl ++ rest).drop (tl.length + 1 - 1))
    Except.ok (c :: cs)) = (utf8DecodeAux rest).map (fun cs => c :: cs)
  rw [show tl.length + 1 - 1 = tl.length from rfl] at *
  rw [show (tl ++ rest).drop tl.length = rest from by
    rw [List.drop_append_of_le_length (by omega)]
    simp]
  cases utf8DecodeAux rest with
  | error e => rfl
  | ok cs => rfl

/-- Decoding inverts encoding on whole byte strings (scalar-value level). -/
theorem utf8DecodeAux_encode (cs : List Char) :
    utf8DecodeAux ((cs.map (fun ch => utf8EncodeChar ch.toNat)).flatten) =
      .ok (cs.map Char.toNat) := by
  induction cs with
  | nil =>
    simp only [List.map_nil, List.flatten_nil]
    rw [utf8DecodeAux]
  | cons c cs ih =>
    simp only [List.map_cons, List.flatten_cons]
    rw [utf8DecodeAux_encodeChar c.toNat (char_toNat_scalar c), ih]
    rfl

/-- Round trip: `s.encode().decode() == s`. -/
theorem utf8Decode_encode (s : String) : utf8Decode (utf8Encode s) = .ok s := by
  have h2 : ∀ l : List Char, (l.map Char.toNat).map Char.ofNat = l := by
    intro l
    induction l with
    | nil => rfl
    | cons a l ih => simp only [List.map_cons, Char.ofNat_toNat, ih]
  unfold utf8Decode utf8Encode
  rw [utf8DecodeAux_encode]
  show Except.ok (String.mk ((s.data.map Char.toNat).map Char.ofNat)) = Except.ok s
  rw [h2]

/-! ### Guest memory facade (`Memory`, `CurrentPlugin`)

`CurrentPlugin` (`extism.py:647`) wraps the live guest instance and exposes
the engine's memory primitives.  The engine-owned linear memory is modelled
as the list of blocks allocated so far together with a fresh-offset source;
`MemState` plays the role of the `ExtismCurrentPlugin*` pointer. -/

/-- `Memory` (`extism.py:225`): an offset+length reference into guest memory. -/
structure Memory where
  offset : Nat
  length : Nat
deriving DecidableEq, Repr

/-- One guest instance's linear memory as visible through the extism engine
primitives: allocated blocks (offset ↦ current bytes) and a strictly
increasing source of fresh offsets.  Offset 0 is kept unused (the engine's
null offset). -/
structure MemState where
  nextOff : Nat
  blocks : List (Nat × List Nat)
deriving Repr

def MemState.empty : MemState := { nextOff := 1, blocks := [] }

/-- `CurrentPlugin.alloc` (`extism.py:673`), backed by
`extism_current_plugin_memory_alloc`: allocate `size` zeroed bytes at a
fresh offset. -/
def MemState.alloc (m : MemState) (size : Nat) : MemState × Memory :=
  ({ nextOff := m.nextOff + size + 1,
     blocks := (m.nextOff, List.replicate size 0) :: m.blocks },
   { offset := m.nextOff, length := size })

/-- `extism_current_plugin_memory_length`: the length of the live block at
`offs`; 0 when no block lives there. -/
def MemState.lengthAt (m : MemState) (offs : Nat) : Nat :=
  match m.blocks.lookup offs with
  | some bs => bs.length
  | none => 0

/-- Reading `len` bytes at `offs` through `_ffi.buffer(p + offs, len)`.
Memory outside any recorded block reads as zeros. -/
def MemState.readAt (m : MemState) (offs len : Nat) : List Nat :=
  match m.blocks.lookup offs with
  | some bs => bs.take len ++ List.replicate (len - bs.length) 0
  | none => List.replicate len 0

/-- The slice assignment `self.memory(mem)[:] = b` (`extism.py:701`): replace
the contents of the block at `mem.offset`.  The only writer in the source,
`return_bytes`, writes exactly `mem.length` bytes into a freshly allocated
block of that size; a length mismatch would raise `ValueError` in Python and
cannot be reached from the verified paths, so it is modelled as a no-op. -/
def MemState.writeAt (m : MemState) (mem : Memory) (b : List Nat) : MemState :=
  { m with
    blocks := m.blocks.map
      (fun p => if p.1 = mem.offset ∧ p.2.length = b.length then (p.1, b) else p) }

/-- `CurrentPlugin.memory_at_offset` (`extism.py:686`): resolve a raw offset
(the `Val` case has already been projected to `offs.value` by the caller) to
a `Memory` handle carrying the engine-reported length.  Offsets are
non-negative on every path the guest engine can produce. -/
def memory_at_offset (m : MemState) (v : PyVal) : Except PyErr Memory :=
  match v with
  | .int n => .ok { offset := n.toNat, length := m.lengthAt n.toNat }
  | w => .error (.typeError ("memory offset must be an integer, got " ++ w.typeName))

/-- `CurrentPlugin.input_buffer` / `input_bytes` (`extism.py:713-723`): resolve
the offset held in the input `Val` and copy the block's bytes out. -/
def input_bytes (m : MemState) (slot : Val) : Except PyErr (List Nat) := do
  let mem ← memory_at_offset m slot.value
  .ok (m.readAt mem.offset mem.length)

/-- `CurrentPlugin.input_string` (`extism.py:725`):
`input_bytes(input).decode()`. -/
def input_string (m : MemState) (slot : Val) : Except PyErr String := do
  let b ← input_bytes m slot
  utf8Decode b

/-- `CurrentPlugin.return_bytes` (`extism.py:693`): allocate `len(b)` bytes,
copy `b` in, and mutate the output `Val` to hold the fresh offset. -/
def return_bytes (m : MemState) (output : Val) (b : List Nat) : MemState × Val :=
  let am := m.alloc b.length
  let m2 := am.1.writeAt am.2 b
  (m2, { output with value := .int am.2.offset })

/-- Python attribute access `v.encode()`: UTF-8 encoding on `str`; any other
type has no `encode` attribute and raises `AttributeError`. -/
def py_encode : PyVal → Except PyErr (List Nat)
  | .str s => .ok (utf8Encode s)
  | v => .error (.attributeError v.typeName "encode")

/-- `CurrentPlugin.return_string` (`extism.py:704`):
`return_bytes(output, s.encode())`. -/
def return_string (m : MemState) (output : Val) (s : PyVal) :
    Except PyErr (MemState × Val) := do
  let b ← py_encode s
  .ok (return_bytes m output b)

/-- `input_bytes` returns the full contents of the block an input `Val`
points at. -/
theorem input_bytes_of_lookup (m : MemState) (slot : Val) (off : Nat)
    (hv : slot.value = .int off) (b : List Nat)
    (hl : m.blocks.lookup off = some b) :
    input_bytes m slot = .ok b := by
  simp only [input_bytes, memory_at_offset, hv, Int.toNat_ofNat]
  show Except.ok (m.readAt off (m.lengthAt off)) = Except.ok b
  simp only [MemState.lengthAt, MemState.readAt, hl]
  rw [List.take_length]
  simp

/-- After `return_bytes`, the mutated output `Val` points at a fresh block
holding exactly the written bytes, and `input_bytes` reads them back. -/
theorem input_bytes_return_bytes (m : MemState) (output : Val) (b : List Nat) :
    (return_bytes m output b).2 = { output with value := .int m.nextOff } ∧
    input_bytes (return_bytes m output b).1 (return_bytes m output b).2 = .ok b := by
  refine ⟨rfl, ?_⟩
  apply input_bytes_of_lookup _ _ m.nextOff rfl
  show List.lookup m.nextOff
      (((m.nextOff, List.replicate b.length 0) :: m.blocks).map
        (fun p => if p.1 = m.nextOff ∧ p.2.length = b.length then (p.1, b) else p)) = some b
  rw [List.map_cons, if_pos ⟨rfl, List.length_replicate _ _⟩]
  simp [List.lookup]

/-! ### JSON (Python `json.dumps` / `json.loads`)

Modelled from the spec: the `StructuredRecord` kind of §3 is serialized with
Python's standard-library `json` module, which is not part of this
repository.  The spec describes it as "data already representable as nested
maps/sequences/scalars" whose encoder writes serialized text and whose
decoder deserializes it; the model below is a concrete JSON
serializer/deserializer pair over exactly that value space (null, booleans,
integers, text, sequences, string-keyed maps). -/

/-- JSON-representable Python values. -/
inductive PyJson where
  | null
  | jbool (b : Bool)
  | jint (n : Int)
  | jstr (s : String)
  | arr (xs : List PyJson)
  | obj (kvs : List (String × PyJson))
deriving Repr

/-- Structural induction for the nested inductive `PyJson`. -/
theorem PyJson.inductionOn (P : PyJson → Prop)
    (h1 : P .null) (h2 : ∀ b, P (.jbool b)) (h3 : ∀ n, P (.jint n))
    (h4 : ∀ s, P (.jstr s))
    (h5 : ∀ xs, (∀ x ∈ xs, P x) → P (.arr xs))
    (h6 : ∀ kvs, (∀ k v, (k, v) ∈ kvs → P v) → P (.obj kvs)) :
    ∀ v, P v
  | .null => h1
  | .jbool b => h2 b
  | .jint n => h3 n
  | .jstr s => h4 s
  | .arr xs => h5 xs (fun x hx => PyJson.inductionOn P h1 h2 h3 h4 h5 h6 x)
  | .obj kvs => h6 kvs (fun k v hv => PyJson.inductionOn P h1 h2 h3 h4 h5 h6 v)
termination_by v => sizeOf v
decreasing_by
  · have := List.sizeOf_lt_of_mem hx
    simp only [PyJson.arr.sizeOf_spec]
    omega
  · have h := List.sizeOf_lt_of_mem hv
    have h2 : sizeOf (k, v) = 1 + sizeOf k + sizeOf v := rfl
    simp only [PyJson.obj.sizeOf_spec]
    omega

/-- Escaping of one character inside a JSON string literal: the quote and the
backslash are escaped, everything else passes through. -/
def jescapeChar (c : Char) : List Char :=
  if c = '"' ∨ c = '\\' then ['\\', c] else [c]

def jescape (cs : List Char) : List Char := (cs.map jescapeChar).flatten

/-- Decimal digits of a natural number, most significant first. -/
def natDigitsBE (n : Nat) : List Nat :=
  if n = 0 then [0] else (Nat.digits 10 n).reverse

def printNat (n : Nat) : List Char :=
  (natDigitsBE n).map (fun d => Char.ofNat (48 + d))

def printInt : Int → List Char
  | .ofNat n => printNat n
  | .negSucc k => '-' :: printNat (k + 1)

/-- Comma-separated join of pre-rendered items. -/
def joinComma : List (List Char) → List Char
  | [] => []
  | [a] => a
  | a :: b :: rest => a ++ ',' :: joinComma (b :: rest)

/-- The JSON serializer (the model of `json.dumps`, producing characters). -/
def jprint : PyJson → List Char
  | .null => ['n', 'u', 'l', 'l']
  | .jbool true => ['t', 'r', 'u', 'e']
  | .jbool false => ['f', 'a', 'l', 's', 'e']
  | .jint n => printInt n
  | .jstr s => '"' :: (jescape s.data ++ ['"'])
  | .arr xs => '[' :: (joinComma (xs.attach.map (fun x => jprint x.1)) ++ [']'])
  | .obj kvs => '\x7b' :: (joinComma (kvs.attach.map
      (fun p => '"' :: (jescape p.1.1.data ++ ['"', ':'] ++ jprint p.1.2))) ++ ['\x7d'])
termination_by v => sizeOf v
decreasing_by
  · have := List.sizeOf_lt_of_mem x.2
    simp only [PyJson.arr.sizeOf_spec]
    omega
  · have h := List.sizeOf_lt_of_mem p.2
    have h2 : sizeOf p.1 = 1 + sizeOf p.1.1 + sizeOf p.1.2 := by
      obtain ⟨⟨a, b⟩, hp⟩ := p
      rfl
    simp only [PyJson.obj.sizeOf_spec]
    omega

theorem jprint_arr (xs : List PyJson) :
    jprint (.arr xs) = '[' :: (joinComma (xs.map jprint) ++ [']']) := by
  rw [jprint, List.attach_map_val]

theorem jprint_obj (kvs : List (String × PyJson)) :
    jprint (.obj kvs) = '\x7b' :: (joinComma (kvs.map
      (fun p => '"' :: (jescape p.1.data ++ ['"', ':'] ++ jprint p.2))) ++ ['\x7d']) := by
  rw [jprint, List.attach_map_val kvs (fun p => '"' :: (jescape p.1.data ++ ['"', ':'] ++ jprint p.2))]

/-- Strip an expected literal prefix, returning the rest on success. -/
def stripPre : List Char → List Char → Option (List Char)
  | [], l => some l
  | _ :: _, [] => Option.none
  | p :: ps, c :: cs => if c = p then stripPre ps cs else Option.none

theorem stripPre_append (p rest : List Char) : stripPre p (p ++ rest) = some rest := by
  induction p with
  | nil => rfl
  | cons c ps ih =>
    rw [List.cons_append, stripPre, if_pos rfl, ih]

/-- Parse the body of a JSON string literal (after the opening quote),
undoing `jescape`; returns the characters and the input after the closing
quote. -/
def jparseStr : List Char → Except PyErr (List Char × List Char)
  | [] => .error .jsonDecodeError
  | c :: rest =>
    if c = '"' then .ok ([], rest)
    else if c = '\\' then
      match rest with
      | c2 :: rest2 =>
        if c2 = '"' ∨ c2 = '\\' then
          (jparseStr rest2).map (fun p => (c2 :: p.1, p.2))
        else .error .jsonDecodeError
      | [] => .error .jsonDecodeError
    else (jparseStr rest).map (fun p => (c :: p.1, p.2))

/-- Take the leading run of decimal digits. -/
def jparseDigits : List Char → List Nat × List Char
  | [] => ([], [])
  | c :: rest =>
    if 48 ≤ c.toNat ∧ c.toNat ≤ 57 then
      let p := jparseDigits rest
      ((c.toNat - 48) :: p.1, p.2)
    else ([], c :: rest)

mutual

/-- The JSON deserializer (the model of `json.loads`), fuel-indexed to bound
recursion depth; `json_loads` supplies fuel that provably suffices for any
serializer output. -/
def jparse : Nat → List Char → Except PyErr (PyJson × List Char)
  | 0, _ => .error .jsonDecodeError
  | f + 1, input =>
    match input with
    | [] => .error .jsonDecodeError
    | c :: rest =>
      if c = 'n' then
        match stripPre ['u', 'l', 'l'] rest with
        | some r => .ok (.null, r)
        | _ => .error .jsonDecodeError
      else if c = 't' then
        match stripPre ['r', 'u', 'e'] rest with
        | some r => .ok (.jbool true, r)
        | _ => .error .jsonDecodeError
      else if c = 'f' then
        match stripPre ['a', 'l', 's', 'e'] rest with
        | some r => .ok (.jbool false, r)
        | _ => .error .jsonDecodeError
      else if c = '"' then
        (jparseStr rest).map (fun p => (.jstr (String.mk p.1), p.2))
      else if c = '[' then
        (jparseArr f rest).map (fun p => (.arr p.1, p.2))
      else if c = '\x7b' then
        (jparseObj f rest).map (fun p => (.obj p.1, p.2))
      else if c = '-' then
        let p := jparseDigits rest
        if p.1.isEmpty then .error .jsonDecodeError
        else .ok (.jint (-(Nat.ofDigits 10 p.1.reverse : Nat)), p.2)
      else if 48 ≤ c.toNat ∧ c.toNat ≤ 57 then
        let p := jparseDigits (c :: rest)
        .ok (.jint (Nat.ofDigits 10 p.1.reverse : Nat), p.2)
      else .error .jsonDecodeError

/-- Array elements after the opening bracket. -/
def jparseArr : Nat → List Char → Except PyErr (List PyJson × List Char)
  | 0, _ => .error .jsonDecodeError
  | f + 1, input =>
    match input with
    | [] => .error .jsonDecodeError
    | c :: rest =>
      if c = ']' then .ok ([], rest)
      else do
        let vr ← jparse f (c :: rest)
        match vr.2 with
        | [] => .error .jsonDecodeError
        | c2 :: r2 =>
          if c2 = ',' then
            (jparseArr f r2).map (fun p => (vr.1 :: p.1, p.2))
          else if c2 = ']' then .ok ([vr.1], r2)
          else .error .jsonDecodeError

/-- Object members after the opening brace. -/
def jparseObj : Nat → List Char → Except PyErr (List (String × PyJson) × List Char)
  | 0, _ => .error .jsonDecodeError
  | f + 1, input =>
    match input with
    | [] => .error .jsonDecodeError
    | c :: rest =>
      if c = '\x7d' then .ok ([], rest)
      else if c = '"' then do
        let kr ← jparseStr rest
        match kr.2 with
        | ':' :: r2 => do
          let vr ← jparse f r2
          match vr.2 with
          | [] => .error .jsonDecodeError
          | c3 :: r3 =>
            if c3 = ',' then
              (jparseObj f r3).map (fun p => ((String.mk kr.1, vr.1) :: p.1, p.2))
            else if c3 = '\x7d' then .ok ([(String.mk kr.1, vr.1)], r3)
            else .error .jsonDecodeError
        | _ => .error .jsonDecodeError
      else .error .jsonDecodeError

end

/-- `json.dumps` (model): serialize to a Python string. -/
def json_dumps (v : PyJson) : String := String.mk (jprint v)

/-- `json.loads` (model): parse a Python string; the fuel `2·|s| + 1`
suffices for everything `json_dumps` can produce (`jsize_le_jprint`). -/
def json_loads (s : String) : Except PyErr PyJson :=
  match jparse (2 * s.data.length + 1) s.data with
  | .ok (v, []) => .ok v
  | .ok (_, _ :: _) => .error .jsonDecodeError
  | .error e => .error e

/-! ### JSON round-trip lemmas -/

theorem charOfNat_toNat (m : Nat) (h : m < 55296) : (Char.ofNat m).toNat = m := by
  have hv : m.isValidChar := Or.inl h
  rw [Char.ofNat, dif_pos hv]
  rfl

/-- The input does not begin with a decimal digit. -/
def nonDigitStart : List Char → Prop
  | [] => True
  | c :: _ => ¬(48 ≤ c.toNat ∧ c.toNat ≤ 57)

theorem jparseDigits_append (ds : List Nat) (h : ∀ d ∈ ds, d < 10) (rest : List Char)
    (hrest : nonDigitStart rest) :
    jparseDigits (ds.map (fun d => Char.ofNat (48 + d)) ++ rest) = (ds, rest) := by
  induction ds with
  | nil =>
    simp only [List.map_nil, List.nil_append]
    cases rest with
    | nil => rfl
    | cons c tl =>
      rw [jparseDigits, if_neg hrest]
  | cons d ds ih =>
    have hd : d < 10 := h d (List.mem_cons_self d ds)
    have htn : (Char.ofNat (48 + d)).toNat = 48 + d := charOfNat_toNat _ (by omega)
    rw [List.map_cons, List.cons_append, jparseDigits, if_pos (by rw [htn]; omega)]
    rw [ih (fun x hx => h x (List.mem_cons_of_mem d hx))]
    rw [htn]
    have : 48 + d - 48 = d := by omega
    rw [this]

theorem natDigitsBE_lt (n : Nat) : ∀ d ∈ natDigitsBE n, d < 10 := by
  intro d hd
  rw [natDigitsBE] at hd
  by_cases h0 : n = 0
  · rw [if_pos h0] at hd
    simp at hd
    omega
  · rw [if_neg h0] at hd
    rw [List.mem_reverse] at hd
    exact Nat.digits_lt_base (by omega) hd

theorem natDigitsBE_ne_nil (n : Nat) : natDigitsBE n ≠ [] := by
  rw [natDigitsBE]
  by_cases h0 : n = 0
  · rw [if_pos h0]
    simp
  · rw [if_neg h0]
    simp only [ne_eq, List.reverse_eq_nil_iff]
    exact Nat.digits_ne_nil_iff_ne_zero.mpr h0

theorem ofDigits_natDigitsBE (n : Nat) : Nat.ofDigits 10 (natDigitsBE n).reverse = n := by
  rw [natDigitsBE]
  by_cases h0 : n = 0
  · rw [if_pos h0, h0]
    simp [Nat.ofDigits]
  · rw [if_neg h0, List.reverse_reverse, Nat.ofDigits_digits]

theorem jparseStr_jescape (cs : List Char) (rest : List Char) :
    jparseStr (jescape cs ++ '"' :: rest) = .ok (cs, rest) := by
  induction cs with
  | nil =>
    show jparseStr ('"' :: rest) = .ok ([], rest)
    rw [jparseStr.eq_def]
    simp only [if_true]
  | cons c cs ih =>
    show jparseStr ((jescapeChar c ++ jescape cs) ++ '"' :: rest) = .ok (c :: cs, rest)
    rw [jescapeChar]
    by_cases hc : c = '"' ∨ c = '\\'
    · rw [if_pos hc]
      show jparseStr ('\\' :: c :: (jescape cs ++ '"' :: rest)) = .ok (c :: cs, rest)
      rw [jparseStr.eq_def]
      simp only [if_true]
      rw [if_pos hc, ih]
      rfl
    · rw [if_neg hc]
      push_neg at hc
      show jparseStr (c :: (jescape cs ++ '"' :: rest)) = .ok (c :: cs, rest)
      rw [jparseStr.eq_def]
      simp only []
      rw [if_neg hc.1, if_neg hc.2, ih]
      rfl

mutual

/-- Fuel measure for `jparse`: enough fuel to parse the printed form. -/
def jsize : PyJson → Nat
  | .null => 1
  | .jbool _ => 1
  | .jint _ => 1
  | .jstr _ => 1
  | .arr xs => 1 + asize xs
  | .obj kvs => 1 + osize kvs

def asize : List PyJson → Nat
  | [] => 1
  | x :: t => 1 + jsize x + asize t

def osize : List (String × PyJson) → Nat
  | [] => 1
  | p :: t => 1 + jsize p.2 + osize t

end

theorem jsize_pos (v : PyJson) : 1 ≤ jsize v := by
  cases v <;> simp [jsize] <;> omega

theorem asize_pos (xs : List PyJson) : 1 ≤ asize xs := by
  cases xs <;> simp [asize] <;> omega

theorem osize_pos (kvs : List (String × PyJson)) : 1 ≤ osize kvs := by
  cases kvs <;> simp [osize] <;> omega

/-- A digit character differs from any character outside the digit range. -/
theorem digitChar_ne (d : Nat) (hd : d < 10) (x : Char)
    (hx : x.toNat < 48 ∨ 58 ≤ x.toNat) : Char.ofNat (48 + d) ≠ x := by
  intro he
  have h1 := charOfNat_toNat (48 + d) (by omega)
  rw [he] at h1
  omega

/-- The printed form of a natural number: head shape. -/
theorem printNat_cons (m : Nat) :
    ∃ d ds, natDigitsBE m = d :: ds ∧ d < 10 ∧
      printNat m = Char.ofNat (48 + d) :: ds.map (fun d => Char.ofNat (48 + d)) := by
  obtain ⟨d, ds, hds⟩ : ∃ d ds, natDigitsBE m = d :: ds := by
    cases h : natDigitsBE m with
    | nil => exact absurd h (natDigitsBE_ne_nil m)
    | cons d ds => exact ⟨d, ds, rfl⟩
  refine ⟨d, ds, hds, natDigitsBE_lt m d (by rw [hds]; exact List.mem_cons_self d ds), ?_⟩
  rw [printNat, hds, List.map_cons]

/-- Every printed value is nonempty and starts with a character other than
`]`, `,` or the closing brace. -/
theorem jprint_head (v : PyJson) :
    ∃ c tl, jprint v = c :: tl ∧ c ≠ ']' ∧ c ≠ ',' ∧ c ≠ '\x7d' := by
  cases v with
  | null => exact ⟨'n', _, by rw [jprint], by decide, by decide, by decide⟩
  | jbool b =>
    cases b with
    | true => exact ⟨'t', _, by rw [jprint], by decide, by decide, by decide⟩
    | false => exact ⟨'f', _, by rw [jprint], by decide, by decide, by decide⟩
  | jint n =>
    cases n with
    | ofNat m =>
      obtain ⟨d, ds, _, hd, hp⟩ := printNat_cons m
      refine ⟨Char.ofNat (48 + d), ds.map (fun d => Char.ofNat (48 + d)), ?_, ?_, ?_, ?_⟩
      · rw [jprint, printInt, hp]
      · exact digitChar_ne d hd ']' (by decide)
      · exact digitChar_ne d hd ',' (by decide)
      · exact digitChar_ne d hd '\x7d' (by decide)
    | negSucc k =>
      exact ⟨'-', _, by rw [jprint, printInt], by decide, by decide, by decide⟩
  | jstr s => exact ⟨'"', _, by rw [jprint], by decide, by decide, by decide⟩
  | arr xs => exact ⟨'[', _, jprint_arr xs, by decide, by decide, by decide⟩
  | obj kvs => exact ⟨'\x7b', _, jprint_obj kvs, by decide, by decide, by decide⟩

/-- One printed object member. -/
def jitem (p : String × PyJson) : List Char :=
  '"' :: (jescape p.1.data ++ ['"', ':'] ++ jprint p.2)

theorem jprint_obj_jitem (kvs : List (String × PyJson)) :
    jprint (.obj kvs) = '\x7b' :: (joinComma (kvs.map jitem) ++ ['\x7d']) := jprint_obj kvs

theorem exc_bind_ok {α β ε : Type} (a : α) (f : α → Except ε β) :
    (Except.ok a >>= f : Except ε β) = f a := rfl

theorem exc_map_ok {α β ε : Type} (g : α → β) (a : α) :
    (Except.map g (Except.ok a) : Except ε β) = Except.ok (g a) := rfl

theorem nonDigitStart_comma (l : List Char) : nonDigitStart (',' :: l) := by
  show ¬(48 ≤ (',' : Char).toNat ∧ (',' : Char).toNat ≤ 57)
  decide

theorem nonDigitStart_rbrack (l : List Char) : nonDigitStart (']' :: l) := by
  show ¬(48 ≤ (']' : Char).toNat ∧ (']' : Char).toNat ≤ 57)
  decide

theorem nonDigitStart_rbrace (l : List Char) : nonDigitStart ('\x7d' :: l) := by
  show ¬(48 ≤ ('\x7d' : Char).toNat ∧ ('\x7d' : Char).toNat ≤ 57)
  decide

/-- The parser inverts the printer, given enough fuel: simultaneously for
values, array bodies and object bodies. -/
theorem jparse_roundtrip (f : Nat) :
    (∀ v rest, jsize v ≤ f → nonDigitStart rest →
       jparse f (jprint v ++ rest) = .ok (v, rest)) ∧
    (∀ xs rest, asize xs ≤ f →
       jparseArr f (joinComma (xs.map jprint) ++ ']' :: rest) = .ok (xs, rest)) ∧
    (∀ kvs rest, osize kvs ≤ f →
       jparseObj f (joinComma (kvs.map jitem) ++ '\x7d' :: rest) = .ok (kvs, rest)) := by
  induction f using Nat.strong_induction_on with
  | _ f IH =>
    refine ⟨?_, ?_, ?_⟩
    · -- values
      intro v rest hs hr
      obtain ⟨g, rfl⟩ : ∃ g, f = g + 1 := ⟨f - 1, by have := jsize_pos v; omega⟩
      cases v with
      | null =>
        rw [jprint]
        show jparse (g + 1) ('n' :: (['u', 'l', 'l'] ++ rest)) = .ok (.null, rest)
        rw [jparse]
        simp only []
        rw [stripPre_append]
        rfl
      | jbool b =>
        cases b with
        | true =>
          rw [jprint]
          show jparse (g + 1) ('t' :: (['r', 'u', 'e'] ++ rest)) = .ok (.jbool true, rest)
          rw [jparse]
          simp only []
          rw [stripPre_append]
          rfl
        | false =>
          rw [jprint]
          show jparse (g + 1) ('f' :: (['a', 'l', 's', 'e'] ++ rest)) = .ok (.jbool false, rest)
          rw [jparse]
          simp only []
          rw [stripPre_append]
          rfl
      | jstr s =>
        rw [jprint]
        show jparse (g + 1) ('"' :: ((jescape s.data ++ ['"']) ++ rest)) = .ok (.jstr s, rest)
        have h1 : (jescape s.data ++ ['"']) ++ rest = jescape s.data ++ '"' :: rest := by
          rw [List.append_assoc]
          rfl
        rw [jparse]
        simp only []
        rw [h1, jparseStr_jescape]
        rfl
      | jint n =>
        cases n with
        | ofNat m =>
          obtain ⟨d, ds, hds, hd, hp⟩ := printNat_cons m
          rw [jprint, printInt, hp]
          show jparse (g + 1)
            (Char.ofNat (48 + d) :: (ds.map (fun d => Char.ofNat (48 + d)) ++ rest)) = _
          have htn : (Char.ofNat (48 + d)).toNat = 48 + d := charOfNat_toNat _ (by omega)
          have hjd : jparseDigits
              (Char.ofNat (48 + d) :: (ds.map (fun d => Char.ofNat (48 + d)) ++ rest)) =
              (d :: ds, rest) := by
            have h2 := jparseDigits_append (d :: ds) (by
              intro x hx
              apply natDigitsBE_lt m
              rw [hds]
              exact hx) rest hr
            rw [List.map_cons, List.cons_append] at h2
            exact h2
          have hval : Nat.ofDigits 10 (d :: ds).reverse = m := by
            rw [← hds]
            exact ofDigits_natDigitsBE m
          rw [jparse.eq_def]
          simp only []
          rw [if_neg (digitChar_ne d hd 'n' (by decide)),
            if_neg (digitChar_ne d hd 't' (by decide)),
            if_neg (digitChar_ne d hd 'f' (by decide)),
            if_neg (digitChar_ne d hd '"' (by decide)),
            if_neg (digitChar_ne d hd '[' (by decide)),
            if_neg (digitChar_ne d hd '\x7b' (by decide)),
            if_neg (digitChar_ne d hd '-' (by decide)),
            if_pos (by rw [htn]; omega), hjd]
          simp only [hval]
          rfl
        | negSucc k =>
          obtain ⟨d, ds, hds, hd, hp⟩ := printNat_cons (k + 1)
          rw [jprint, printInt, hp]
          show jparse (g + 1)
            ('-' :: (Char.ofNat (48 + d) :: ds.map (fun d => Char.ofNat (48 + d)) ++ rest)) = _
          have hjd : jparseDigits
              (Char.ofNat (48 + d) :: ds.map (fun d => Char.ofNat (48 + d)) ++ rest) =
              (d :: ds, rest) := by
            have h2 := jparseDigits_append (d :: ds) (by
              intro x hx
              apply natDigitsBE_lt (k + 1)
              rw [hds]
              exact hx) rest hr
            rw [List.map_cons, List.cons_append] at h2
            exact h2
          have hval : Nat.ofDigits 10 (d :: ds).reverse = k + 1 := by
            rw [← hds]
            exact ofDigits_natDigitsBE (k + 1)
          rw [jparse]
          simp only []
          rw [hjd]
          simp only [hval]
          rw [show (-(↑(k + 1) : Int)) = Int.negSucc k from by rw [Int.negSucc_eq]; simp]
          rfl
      | arr xs =>
        rw [jprint_arr]
        show jparse (g + 1) ('[' :: ((joinComma (xs.map jprint) ++ [']']) ++ rest)) = _
        have h1 : (joinComma (xs.map jprint) ++ [']']) ++ rest =
            joinComma (xs.map jprint) ++ ']' :: rest := by
          rw [List.append_assoc]
          rfl
        rw [jparse]
        simp only []
        rw [h1, (IH g (by omega)).2.1 xs rest (by rw [jsize] at hs; omega)]
        rfl
      | obj kvs =>
        rw [jprint_obj_jitem]
        show jparse (g + 1) ('\x7b' :: ((joinComma (kvs.map jitem) ++ ['\x7d']) ++ rest)) = _
        have h1 : (joinComma (kvs.map jitem) ++ ['\x7d']) ++ rest =
            joinComma (kvs.map jitem) ++ '\x7d' :: rest := by
          rw [List.append_assoc]
          rfl
        rw [jparse]
        simp only []
        rw [h1, (IH g (by omega)).2.2 kvs rest (by rw [jsize] at hs; omega)]
        rfl
    · -- array bodies
      intro xs rest hs
      obtain ⟨g, rfl⟩ : ∃ g, f = g + 1 := ⟨f - 1, by have := asize_pos xs; omega⟩
      cases xs with
      | nil =>
        show jparseArr (g + 1) (']' :: rest) = .ok ([], rest)
        rw [jparseArr]
        rfl
      | cons x t =>
        obtain ⟨c, tl, hx, hne1, hne2, hne3⟩ := jprint_head x
        have hsx : jsize x ≤ g := by rw [asize] at hs; have := asize_pos t; omega
        have hst : asize t ≤ g := by rw [asize] at hs; have := jsize_pos x; omega
        cases t with
        | nil =>
          show jparseArr (g + 1) (jprint x ++ ']' :: rest) = .ok ([x], rest)
          have hj := (IH g (by omega)).1 x (']' :: rest) hsx (nonDigitStart_rbrack rest)
          rw [hx, List.cons_append] at hj ⊢
          rw [jparseArr]
          rw [if_neg hne1, hj, exc_bind_ok]
          rfl
        | cons y t2 =>
          show jparseArr (g + 1)
            ((jprint x ++ ',' :: joinComma ((y :: t2).map jprint)) ++ ']' :: rest) = _
          rw [List.append_assoc, List.cons_append]
          have hj := (IH g (by omega)).1 x
            (',' :: (joinComma ((y :: t2).map jprint) ++ ']' :: rest)) hsx
            (nonDigitStart_comma _)
          rw [hx, List.cons_append] at hj ⊢
          rw [jparseArr]
          rw [if_neg hne1, hj, exc_bind_ok]
          show Except.map (fun p => (x :: p.1, p.2))
            (jparseArr g (joinComma ((y :: t2).map jprint) ++ ']' :: rest)) = _
          rw [(IH g (by omega)).2.1 (y :: t2) rest hst]
          rfl
    · -- object bodies
      intro kvs rest hs
      obtain ⟨g, rfl⟩ : ∃ g, f = g + 1 := ⟨f - 1, by have := osize_pos kvs; omega⟩
      cases kvs with
      | nil =>
        show jparseObj (g + 1) ('\x7d' :: rest) = .ok ([], rest)
        rw [jparseObj]
        rfl
      | cons kv t =>
        obtain ⟨k, v⟩ := kv
        have hs2 : 1 + jsize v + osize t ≤ g + 1 := by
          rw [osize] at hs
          simpa using hs
        have hsx : jsize v ≤ g := by have := osize_pos t; omega
        have hst : osize t ≤ g := by have := jsize_pos v; omega
        have hitem : ∀ tail : List Char, jitem (k, v) ++ tail =
            '"' :: (jescape k.data ++ '"' :: ':' :: (jprint v ++ tail)) := by
          intro tail
          rw [jitem]
          simp only [List.cons_append, List.append_assoc]
          rfl
        cases t with
        | nil =>
          show jparseObj (g + 1) (jitem (k, v) ++ '\x7d' :: rest) = .ok ([(k, v)], rest)
          rw [hitem, jparseObj]
          simp only []
          rw [jparseStr_jescape, exc_bind_ok]
          simp only []
          have hj := (IH g (by omega)).1 v ('\x7d' :: rest) hsx (nonDigitStart_rbrace rest)
          rw [hj, exc_bind_ok]
          rfl
        | cons kv2 t2 =>
          show jparseObj (g + 1)
            ((jitem (k, v) ++ ',' :: joinComma ((kv2 :: t2).map jitem)) ++ '\x7d' :: rest) = _
          rw [List.append_assoc, List.cons_append, hitem, jparseObj]
          simp only []
          rw [jparseStr_jescape, exc_bind_ok]
          simp only []
          have hj := (IH g (by omega)).1 v
            (',' :: (joinComma ((kv2 :: t2).map jitem) ++ '\x7d' :: rest)) hsx
            (nonDigitStart_comma _)
          rw [hj, exc_bind_ok]
          simp only []
          rw [(IH g (by omega)).2.2 (kv2 :: t2) rest hst]
          rfl

theorem jprint_length_pos (v : PyJson) : 1 ≤ (jprint v).length := by
  obtain ⟨c, tl, hv, -⟩ := jprint_head v
  rw [hv]
  simp

theorem asize_le (xs : List PyJson) :
    (∀ x ∈ xs, jsize x ≤ 2 * (jprint x).length) →
    asize xs ≤ 2 * (joinComma (xs.map jprint)).length + 2 := by
  induction xs with
  | nil =>
    intro _
    simp [asize, joinComma]
  | cons x t ih =>
    intro h
    have hx := h x (List.mem_cons_self x t)
    cases t with
    | nil =>
      rw [asize, asize, List.map_cons, List.map_nil, joinComma]
      omega
    | cons y t2 =>
      have ht := ih (fun z hz => h z (List.mem_cons_of_mem x hz))
      have he : asize (y :: t2) = 1 + jsize y + asize t2 := by rw [asize]
      rw [asize]
      rw [List.map_cons, List.map_cons, joinComma, List.length_append, List.length_cons]
      rw [List.map_cons] at ht
      omega

theorem osize_le (kvs : List (String × PyJson)) :
    (∀ k v, (k, v) ∈ kvs → jsize v ≤ 2 * (jprint v).length) →
    osize kvs ≤ 2 * (joinComma (kvs.map jitem)).length + 2 := by
  induction kvs with
  | nil =>
    intro _
    simp [osize, joinComma]
  | cons p t ih =>
    intro h
    obtain ⟨k, v⟩ := p
    have hv := h k v (List.mem_cons_self _ t)
    have hlen : (jprint v).length ≤ (jitem (k, v)).length := by
      rw [jitem]
      simp [List.length_append]
      omega
    cases t with
    | nil =>
      rw [osize, osize, List.map_cons, List.map_nil, joinComma]
      simp only []
      omega
    | cons q t2 =>
      have ht := ih (fun k2 v2 hm => h k2 v2 (List.mem_cons_of_mem _ hm))
      have he : osize (q :: t2) = 1 + jsize q.2 + osize t2 := by rw [osize]
      rw [osize]
      rw [List.map_cons, List.map_cons, joinComma, List.length_append, List.length_cons]
      rw [List.map_cons] at ht
      simp only []
      omega

/-- The fuel `json_loads` supplies is enough for any `json_dumps` output. -/
theorem jsize_le_jprint (v : PyJson) : jsize v ≤ 2 * (jprint v).length := by
  induction v using PyJson.inductionOn with
  | h1 =>
    rw [jprint, jsize]
    simp
  | h2 b =>
    cases b with
    | true =>
      rw [jprint, jsize]
      simp
    | false =>
      rw [jprint, jsize]
      simp
  | h3 n =>
    rw [jsize]
    have := jprint_length_pos (.jint n)
    omega
  | h4 s =>
    rw [jsize]
    have := jprint_length_pos (.jstr s)
    omega
  | h5 xs ihx =>
    rw [jprint_arr, jsize]
    have := asize_le xs ihx
    simp only [List.length_cons, List.length_append, List.length_singleton]
    omega
  | h6 kvs ihk =>
    rw [jprint_obj_jitem, jsize]
    have := osize_le kvs ihk
    simp only [List.length_cons, List.length_append, List.length_singleton]
    omega

/-- Round trip: `json.loads(json.dumps(v)) == v`. -/
theorem json_loads_dumps (v : PyJson) : json_loads (json_dumps v) = .ok v := by
  have h1 := (jparse_roundtrip (2 * (jprint v).length + 1)).1 v []
    (by have := jsize_le_jprint v; omega) trivial
  rw [List.append_nil] at h1
  rw [json_dumps, json_loads]
  show (match jparse (2 * (jprint v).length + 1) (jprint v) with
    | .ok (v, []) => (.ok v : Except PyErr PyJson)
    | .ok (_, _ :: _) => .error .jsonDecodeError
    | .error e => .error e) = .ok v
  rw [h1]

mutual

/-- Embed a JSON value as the Python runtime value `json.loads` produces. -/
def PyJson.toPyVal : PyJson → PyVal
  | .null => .none
  | .jbool b => .bool b
  | .jint n => .int n
  | .jstr s => .str s
  | .arr xs => .list (toPyValList xs)
  | .obj kvs => .dict (toPyValKVs kvs)

def toPyValList : List PyJson → List PyVal
  | [] => []
  | x :: t => x.toPyVal :: toPyValList t

def toPyValKVs : List (String × PyJson) → List (String × PyVal)
  | [] => []
  | p :: t => (p.1, p.2.toPyVal) :: toPyValKVs t

end

mutual

/-- The conversion `json.dumps` applies to its argument: accept exactly the
JSON-representable runtime values, raise `TypeError` otherwise (as
`json.dumps` does for unserializable objects). -/
def pyToJson : PyVal → Except PyErr PyJson
  | .none => .ok .null
  | .bool b => .ok (.jbool b)
  | .int n => .ok (.jint n)
  | .str s => .ok (.jstr s)
  | .list xs => (pyToJsonList xs).map .arr
  | .dict kvs => (pyToJsonKVs kvs).map .obj
  | v => .error (.typeError ("Object of type " ++ v.typeName ++ " is not JSON serializable"))

def pyToJsonList : List PyVal → Except PyErr (List PyJson)
  | [] => .ok []
  | x :: t => do
    let j ← pyToJson x
    let js ← pyToJsonList t
    .ok (j :: js)

def pyToJsonKVs : List (String × PyVal) → Except PyErr (List (String × PyJson))
  | [] => .ok []
  | p :: t => do
    let j ← pyToJson p.2
    let js ← pyToJsonKVs t
    .ok ((p.1, j) :: js)

end

theorem pyToJsonList_toPyValList (xs : List PyJson)
    (h : ∀ x ∈ xs, pyToJson x.toPyVal = .ok x) :
    pyToJsonList (toPyValList xs) = .ok xs := by
  induction xs with
  | nil => rw [toPyValList, pyToJsonList]
  | cons x t ih =>
    rw [toPyValList, pyToJsonList, h x (List.mem_cons_self x t),
      ih (fun z hz => h z (List.mem_cons_of_mem x hz))]
    rfl

theorem pyToJsonKVs_toPyValKVs (kvs : List (String × PyJson))
    (h : ∀ k v, (k, v) ∈ kvs → pyToJson v.toPyVal = .ok v) :
    pyToJsonKVs (toPyValKVs kvs) = .ok kvs := by
  induction kvs with
  | nil => rw [toPyValKVs, pyToJsonKVs]
  | cons p t ih =>
    obtain ⟨k, v⟩ := p
    rw [toPyValKVs, pyToJsonKVs, h k v (List.mem_cons_self _ t),
      ih (fun k2 v2 hm => h k2 v2 (List.mem_cons_of_mem _ hm))]
    rfl

/-- `json.dumps` accepts exactly what `json.loads` produced: converting a
JSON value to its runtime form and back is the identity. -/
theorem pyToJson_toPyVal (j : PyJson) : pyToJson j.toPyVal = .ok j := by
  induction j using PyJson.inductionOn with
  | h1 => rw [PyJson.toPyVal, pyToJson]
  | h2 b => rw [PyJson.toPyVal, pyToJson]
  | h3 n => rw [PyJson.toPyVal, pyToJson]
  | h4 s => rw [PyJson.toPyVal, pyToJson]
  | h5 xs ihx =>
    rw [PyJson.toPyVal, pyToJson, pyToJsonList_toPyValList xs ihx]
    rfl
  | h6 kvs ihk =>
    rw [PyJson.toPyVal, pyToJson, pyToJsonKVs_toPyValKVs kvs ihk]
    rfl

/-! ### Pickle (Python `pickle.dumps` / `pickle.loads`)

Modelled from the spec: the `OpaqueObject` kind of §3 is serialized with
Python's standard-library `pickle` module, which is not part of this
repository and whose byte format the spec treats as an opaque
"host-language-specific serialized blob".  The model below is a concrete
serializer/deserializer pair for objects (a class name plus named fields
holding structured data), built on the JSON machinery above. -/

/-- An opaque host object: class name and named fields. -/
structure PyObj where
  cls : String
  fields : List (String × PyJson)
deriving Repr

/-- The runtime value a pickled object deserializes to. -/
def PyObj.toPyVal (o : PyObj) : PyVal :=
  .obj o.cls (toPyValKVs o.fields)

/-- `pickle.dumps` (model): serialize an object to bytes. -/
def pickle_dumps (o : PyObj) : List Nat :=
  utf8Encode (String.mk (jprint (.obj [("cls", .jstr o.cls), ("fields", .obj o.fields)])))

/-- `pickle.loads` (model): deserialize bytes back to an object. -/
def pickle_loads (b : List Nat) : Except PyErr PyObj := do
  let s ← utf8Decode b
  let j ← json_loads s
  match j with
  | .obj [("cls", .jstr c), ("fields", .obj fs)] => .ok ⟨c, fs⟩
  | _ => .error (.valueError "unpickling failed")

/-- Round trip: `pickle.loads(pickle.dumps(o)) == o`. -/
theorem pickle_loads_dumps (o : PyObj) : pickle_loads (pickle_dumps o) = .ok o := by
  rw [pickle_dumps, pickle_loads, utf8Decode_encode, exc_bind_ok]
  rw [show String.mk (jprint (.obj [("cls", .jstr o.cls), ("fields", .obj o.fields)])) =
    json_dumps (.obj [("cls", .jstr o.cls), ("fields", .obj o.fields)]) from rfl]
  rw [json_loads_dumps, exc_bind_ok]
  rfl

/-- The conversion `pickle.dumps` applies: accept the opaque objects of the
model, raise `TypeError` otherwise. -/
def pyToObj : PyVal → Except PyErr PyObj
  | .obj cls fields => (pyToJsonKVs fields).map (fun fs => PyObj.mk cls fs)
  | v => .error (.typeError ("cannot pickle " ++ v.typeName))

theorem pyToObj_toPyVal (o : PyObj) : pyToObj o.toPyVal = .ok o := by
  rw [PyObj.toPyVal, pyToObj,
    pyToJsonKVs_toPyValKVs o.fields (fun k v hm => pyToJson_toPyVal v)]
  rfl

/-! ### Type mapping registry (`_map_arg`, `_map_ret`) -/

/-- A Python type annotation as seen by `get_type_hints` inside
`TypeInferredFunction`: the concrete types `_map_arg`/`_map_ret` test for,
the `typing.Annotated` metadata markers `Json`, `Pickle` and `Codec(f)`,
the `CurrentPlugin` class, `typing.Tuple[...]` (whose `get_origin` is
`tuple`), and any other annotation (no `__metadata__`, no mapping). -/
inductive PyAnn where
  | str
  | bytes
  | int
  | float
  | bool
  | currentPlugin
  | annJson
  | annPickle
  | annCodec (codec : PyVal → Except PyErr PyVal)
  | tuple (args : List PyAnn)
  | other (name : String)

/-- A per-slot input decoder `(plugin, slot) -> host value`
(the lambdas of `_map_arg`). -/
abbrev ArgExtract := MemState → Val → Except PyErr PyVal

/-- A per-slot output encoder `(plugin, slot, value) -> ()`
(the lambdas of `_map_ret`); mutation is modelled by returning the updated
memory and slot. -/
abbrev RetEmplace := MemState → Val → PyVal → Except PyErr (MemState × Val)

/-- The length/type check performed by the buffer write inside
`return_bytes`: its argument must be `bytes`. -/
def py_expect_bytes : PyVal → Except PyErr (List Nat)
  | .bytes b => .ok b
  | v => .error (.typeError ("a bytes-like object is required, not " ++ v.typeName))

/-- `_map_arg` (`extism.py:279-315`): the wire type and decoder for one
parameter annotation, tried in source order (`str`, `bytes`, `int`,
`float`, `bool`, then the `__metadata__` items `Json`, `Pickle`, `Codec`);
anything else raises `TypeError`. -/
def map_arg (arg_name : String) (xs : PyAnn) : Except PyErr (ValType × ArgExtract) :=
  match xs with
  | .str => .ok (.I64, fun plugin slot => (input_string plugin slot).map PyVal.str)
  | .bytes => .ok (.I64, fun plugin slot => (input_bytes plugin slot).map PyVal.bytes)
  | .int => .ok (.I64, fun _ slot => .ok slot.value)
  | .float => .ok (.F64, fun _ slot => .ok slot.value)
  | .bool => .ok (.I32, fun _ slot => .ok slot.value)
  | .annJson => .ok (.I64, fun plugin slot => do
      let s ← input_string plugin slot
      (json_loads s).map PyJson.toPyVal)
  | .annPickle => .ok (.I64, fun plugin slot => do
      let b ← input_bytes plugin slot
      (pickle_loads b).map PyObj.toPyVal)
  | .annCodec c => .ok (.I64, fun plugin slot => do
      let b ← input_bytes plugin slot
      c (.bytes b))
  | _ => .error (.typeError ("Could not infer input type for argument " ++ arg_name))

mutual

/-- `_map_ret` (`extism.py:318-373`): the list of (wire type, encoder) slots
for one return annotation, tried in source order.  A `tuple` origin expands
via `functools.reduce(lambda lhs, rhs: lhs + _map_ret(rhs), get_args(xs), [])`,
modelled by the accumulator fold `map_ret_fold`.  The `int`/`float`/`bool`
encoders call `slot.assign(value)` (`val_assign`). -/
def map_ret : PyAnn → Except PyErr (List (ValType × RetEmplace))
  | .str => .ok [(.I64, fun plugin slot value => return_string plugin slot value)]
  | .bytes => .ok [(.I64, fun plugin slot value => do
      let b ← py_expect_bytes value
      .ok (return_bytes plugin slot b))]
  | .int => .ok [(.I64, fun plugin slot value =>
      (val_assign slot value).map (fun s => (plugin, s)))]
  | .float => .ok [(.F64, fun plugin slot value =>
      (val_assign slot value).map (fun s => (plugin, s)))]
  | .bool => .ok [(.I32, fun plugin slot value =>
      (val_assign slot value).map (fun s => (plugin, s)))]
  | .tuple ks => map_ret_fold ks (.ok [])
  | .annJson => .ok [(.I64, fun plugin slot value => do
      let j ← pyToJson value
      return_string plugin slot (.str (json_dumps j)))]
  | .annPickle => .ok [(.I64, fun plugin slot value => do
      let o ← pyToObj value
      .ok (return_bytes plugin slot (pickle_dumps o)))]
  | .annCodec c => .ok [(.I64, fun plugin slot value => do
      let r ← c value
      let b ← py_expect_bytes r
      .ok (return_bytes plugin slot b))]
  | .currentPlugin => .error (.typeError "Could not infer return type")
  | .other _ => .error (.typeError "Could not infer return type")

/-- `functools.reduce(lambda lhs, rhs: lhs + _map_ret(rhs), ks, lhs0)`. -/
def map_ret_fold (ks : List PyAnn)
    (acc : Except PyErr (List (ValType × RetEmplace))) :
    Except PyErr (List (ValType × RetEmplace)) :=
  match ks with
  | [] => acc
  | k :: t => map_ret_fold t (do
      let l ← acc
      let r ← map_ret k
      .ok (l ++ r))

end

/-! ### Signature inference and the trampoline (`TypeInferredFunction`) -/

/-- The annotations of a host function as `get_type_hints` reports them:
the annotated parameters in declaration order and the `return` annotation
when present. -/
structure FuncDecl where
  params : List (String × PyAnn)
  ret : Option PyAnn

/-- The derived signature. -/
structure Signature where
  uses_current_plugin : Bool
  args : List (ValType × ArgExtract)
  returns : List (ValType × RetEmplace)

/-- `hints.get(arg_names[0], None) == CurrentPlugin` on the first parameter
(`extism.py:404`). -/
def leadingCurrentPlugin : List (String × PyAnn) → Bool
  | (_, .currentPlugin) :: _ => true
  | _ => false

/-- `returns = [] if returns is None else _map_ret(returns)`
(`extism.py:410`). -/
def infer_returns : Option PyAnn → Except PyErr (List (ValType × RetEmplace))
  | Option.none => .ok []
  | some r => map_ret r

/-- Signature inference from `TypeInferredFunction.__init__`
(`extism.py:389-410`): reject a function with no annotations at all
(`len(hints) == 0`, the return annotation included); detect and drop a
leading `CurrentPlugin` parameter; map the remaining parameters with
`_map_arg` and the return annotation with `_map_ret` (no annotation means
zero return slots). -/
def infer_signature (decl : FuncDecl) : Except PyErr Signature :=
  if decl.params.length + (if decl.ret.isSome then 1 else 0) = 0 then
    .error (.typeError
      "Host function must include Python type annotations or explicitly list arguments.")
  else do
    let args ← (if leadingCurrentPlugin decl.params then decl.params.tail
                else decl.params).mapM (fun p => map_arg p.1 p.2)
    let returns ← infer_returns decl.ret
    .ok ⟨leadingCurrentPlugin decl.params, args, returns⟩

/-- A host function: takes the plugin state and the assembled positional
arguments, returns the (possibly updated) state and one result value. -/
abbrev HostFn := MemState → List PyVal → Except PyErr (MemState × PyVal)

/-- The output loop of `inner_func` (`extism.py:422-423`):
`for (_, emplace), slot in zip(returns, outputs): emplace(plugin, slot, result)`.
Every per-slot encoder receives the whole `result`. -/
def emplace_outputs (returns : List (ValType × RetEmplace)) (outputs : List Val)
    (result : PyVal) (m : MemState) : Except PyErr (MemState × List Val) :=
  match returns, outputs with
  | [], _ => .ok (m, outputs)
  | _ :: _, [] => .ok (m, [])
  | r :: rs, slot :: os => do
    let ms ← r.2 m slot result
    let rest ← emplace_outputs rs os result ms.1
    .ok (rest.1, ms.2 :: rest.2)

/-- `inner_func` (`extism.py:412-423`): the synthesized trampoline.  Decode
every zipped (decoder, input) pair, prepend the plugin handle when the
declaration had a leading `CurrentPlugin` parameter, append the bound user
data, invoke the host function, and run the output loop on its result. -/
def inner_func (uses_current_plugin : Bool)
    (args : List (ValType × ArgExtract)) (returns : List (ValType × RetEmplace))
    (func : HostFn) (plugin : MemState) (inputs outputs : List Val)
    (user_data : List PyVal) : Except PyErr (MemState × List Val) := do
  let first_arg : List PyVal := if uses_current_plugin then [.curPlugin] else []
  let decoded ← (args.zip inputs).mapM (fun p => p.1.2 plugin p.2)
  let inner_args := first_arg ++ decoded ++ user_data
  let mr ← func plugin inner_args
  emplace_outputs returns outputs mr.2 mr.1

/-! ### Registry and dispatch (`host_fn`, `handle_args`) -/

/-- Big-endian base-256 digits with a fixed width. -/
def toBytesBE : Nat → Nat → List Nat
  | 0, _ => []
  | l + 1, n => toBytesBE l (n / 256) ++ [n % 256]

/-- `idx.to_bytes(length=4, byteorder="big")` generalized to any width;
raises `OverflowError` when the value does not fit (`int.to_bytes`). -/
def int_to_bytes (n len : Nat) : Except PyErr (List Nat) :=
  if n < 256 ^ len then .ok (toBytesBE len n) else .error .overflowError

/-- `int.from_bytes(b, byteorder="big")`. -/
def int_from_bytes (b : List Nat) : Nat := b.foldl (fun acc d => acc * 256 + d) 0

theorem int_from_bytes_toBytesBE (l : Nat) :
    ∀ n, n < 256 ^ l → int_from_bytes (toBytesBE l n) = n := by
  induction l with
  | zero =>
    intro n h
    have : n = 0 := by simpa using h
    subst this
    rfl
  | succ l ih =>
    intro n h
    rw [toBytesBE, int_from_bytes, List.foldl_append]
    have hdiv : n / 256 < 256 ^ l := by
      apply Nat.div_lt_of_lt_mul
      rw [pow_succ] at h
      omega
    have := ih (n / 256) hdiv
    rw [int_from_bytes] at this
    simp only [List.foldl_cons, List.foldl_nil]
    rw [this]
    omega

/-- `int.from_bytes` applied to a popped user-data entry (must be bytes). -/
def int_from_bytes_py : PyVal → Except PyErr Nat
  | .bytes b => .ok (int_from_bytes b)
  | v => .error (.typeError ("cannot convert " ++ v.typeName ++ " object to bytes"))

/-- A function object stored in `HOST_FN_REGISTRY`: its wire types, the
user-data tuple captured by `_ffi.new_handle` (the user payload followed by
the 4-byte index suffix), and the trampoline (`ExplicitFunction.__call__`
forwards straight to `TypeInferredFunction`'s `inner_func`). -/
structure RegisteredFn where
  name : String
  args : List ValType
  returns : List ValType
  user_data : List PyVal
  call : MemState → List Val → List Val → List PyVal → Except PyErr (MemState × List Val)

/-- The decorator body `outer` inside `host_fn` (`extism.py:860-873`) on the
inferred path (`signature=None`): resolve the exposed name, encode
`len(HOST_FN_REGISTRY)` as the 4-byte big-endian index suffix, append it to
the user data, build the `TypeInferredFunction` (inference errors propagate
synchronously and the registry is left untouched) and append the function
to `HOST_FN_REGISTRY`. -/
def host_fn_outer (registry : List RegisteredFn) (name : Option String)
    (funcName : String) (decl : FuncDecl) (func : HostFn)
    (user_data : List PyVal) : List RegisteredFn × Except PyErr RegisteredFn :=
  let n := name.getD funcName
  match int_to_bytes registry.length 4 with
  | .error e => (registry, .error e)
  | .ok idx =>
    let ud := user_data ++ [.bytes idx]
    match infer_signature decl with
    | .error e => (registry, .error e)
    | .ok sig =>
      let fn : RegisteredFn :=
        { name := n
          args := sig.args.map Prod.fst
          returns := sig.returns.map Prod.fst
          user_data := ud
          call := inner_func sig.uses_current_plugin sig.args sig.returns func }
      (registry ++ [fn], .ok fn)

/-- `handle_args` (`extism.py:878-901`): the single shared boundary entry
point.  Convert the raw inputs and outputs with `_convert_value`, pop the
trailing registry index off the user data (`udata.pop()` takes the last
element), look the function up by index (`HOST_FN_REGISTRY[idx]`), call it
with the remaining user data, and write the outputs back with
`_convert_output`. -/
def handle_args (registry : List RegisteredFn) (current : MemState)
    (inputs outputs : List CVal) (user_data : List PyVal) :
    Except PyErr (MemState × List CVal) := do
  let inp ← inputs.mapM convert_value
  let outp ← outputs.mapM convert_value
  match user_data.getLast? with
  | Option.none => .error .indexError
  | some last => do
    let idx ← int_from_bytes_py last
    let udata := user_data.dropLast
    match registry[idx]? with
    | Option.none => .error .indexError
    | some fn => do
      let mo ← fn.call current inp outp udata
      let outs ← (outputs.zip mo.2).mapM (fun cv => convert_output cv.1 cv.2)
      .ok (mo.1, outs)

/-! ### `Plugin.call` -/

/-- The engine-level surface of one guest call:
`extism_plugin_call_with_host_context` returns a status code, and the error
string and output buffer are read back afterwards. -/
structure EngineResult where
  rc : Int
  err : Option String
  output : List Nat

/-- `data: Union[str, bytes]` as accepted by `Plugin.call`. -/
inductive PyData where
  | strData (s : String)
  | bytesData (b : List Nat)

/-- `Plugin.call` (`extism.py:574-604`), parametrized by the opaque engine:
a `str` data argument is UTF-8 encoded (`if isinstance(data, str): data =
data.encode()`), the engine is invoked with the function name, the data
bytes and the host context, `_check_error` raises an `extism.Error` on an
engine error string or a nonzero status, and the output buffer is fed to
`parse` (`parse=None` returns the buffer itself). -/
def plugin_call (engine : String → List Nat → PyVal → EngineResult)
    (function_name : String) (data : PyData)
    (parse : Option (List Nat → PyVal)) (host_context : PyVal) :
    Except PyErr PyVal :=
  let dataBytes := match data with
    | .strData s => utf8Encode s
    | .bytesData b => b
  let r := engine function_name dataBytes host_context
  match r.err with
  | some msg => .error (.extismError msg)
  | Option.none =>
    if r.rc ≠ 0 then .error (.extismError ("Error code: " ++ toString r.rc))
    else match parse with
      | Option.none => .ok (.bytes r.output)
      | some p => .ok (p r.output)

/-! ### Support lemmas for the claim theorems -/

theorem exc_bind_error {α β : Type} (e : PyErr) (f : α → Except PyErr β) :
    (Except.error e >>= f : Except PyErr β) = .error e := rfl

theorem exc_map_error {α β : Type} (g : α → β) (e : PyErr) :
    (Except.map g (Except.error e) : Except PyErr β) = .error e := rfl

theorem map_ret_fold_error (ks : List PyAnn) (e : PyErr) :
    map_ret_fold ks (.error e) = .error e := by
  induction ks with
  | nil => rfl
  | cons k t ih =>
    rw [map_ret_fold]
    exact ih

theorem map_ret_fold_mapM (ks : List PyAnn) :
    ∀ acc, map_ret_fold ks (.ok acc) =
      (ks.mapM map_ret).map (fun ls => acc ++ ls.flatten) := by
  induction ks with
  | nil =>
    intro acc
    rw [List.mapM_nil]
    show Except.ok acc = Except.ok (acc ++ ([] : List (List (ValType × RetEmplace))).flatten)
    rw [List.flatten_nil, List.append_nil]
  | cons k t ih =>
    intro acc
    rw [map_ret_fold, List.mapM_cons]
    cases hk : map_ret k with
    | error e =>
      rw [exc_bind_ok, exc_bind_error, map_ret_fold_error]
      rfl
    | ok r =>
      rw [exc_bind_ok, exc_bind_ok, ih (acc ++ r)]
      cases ht : t.mapM map_ret with
      | error e => rfl
      | ok rs =>
        show Except.ok ((acc ++ r) ++ rs.flatten) = Except.ok (acc ++ (r :: rs).flatten)
        rw [List.flatten_cons, List.append_assoc]

/-! ### Claim theorems -/

/-- **C10**: `Plugin.call(name, s, parse, ctx)` is equivalent to
`Plugin.call(name, s.encode(), parse, ctx)` for every engine behavior: a
`str` data argument is UTF-8 encoded before being passed to the guest, so
the engine receives identical input bytes and the call returns an identical
result in both cases. -/
theorem plugin_call_str_bytes_equiv
    (engine : String → List Nat → PyVal → EngineResult) (function_name : String)
    (s : String) (parse : Option (List Nat → PyVal)) (host_context : PyVal) :
    plugin_call engine function_name (.strData s) parse host_context =
      plugin_call engine function_name (.bytesData (utf8Encode s)) parse host_context := rfl

/-- **C9**: signature inference for the return annotation
`typing.Tuple[int, str]` produces exactly the wire return types
`[I64, I64]` in that order, and in general a tuple return annotation
expands to the concatenation, in declared order, of the wire return lists
of its members. -/
theorem tuple_return_wire_expansion :
    ((map_ret (.tuple [.int, .str])).map (List.map Prod.fst) =
      .ok [ValType.I64, ValType.I64]) ∧
    (∀ ks, map_ret (.tuple ks) = (ks.mapM map_ret).map List.flatten) := by
  constructor
  · rfl
  · intro ks
    rw [map_ret, map_ret_fold_mapM]
    have h : (fun ls : List (List (ValType × RetEmplace)) => [] ++ ls.flatten) =
        List.flatten := by
      funext ls
      rw [List.nil_append]
    rw [h]

/-- **C4**: if decoding any wire input argument raises, the trampoline
aborts with that error and the host function is never invoked — the result
does not depend on the host function at all, because all per-slot decoders
run (in the list comprehension at `extism.py:414-416`) before `func` is
called. -/
theorem decode_failure_prevents_invocation
    (args : List (ValType × ArgExtract)) (plugin : MemState) (inputs : List Val)
    (e : PyErr)
    (hfail : (args.zip inputs).mapM (fun p => p.1.2 plugin p.2) = .error e) :
    ∀ (uses : Bool) (returns : List (ValType × RetEmplace)) (func : HostFn)
      (outputs : List Val) (user_data : List PyVal),
      inner_func uses args returns func plugin inputs outputs user_data = .error e := by
  intro uses returns func outputs ud
  rw [inner_func, hfail]
  rfl

/-- A user-supplied `Codec` transform that always raises, used to exhibit a
failing input decoder. -/
def failingCodec : PyVal → Except PyErr PyVal := fun _ => .error (.valueError "boom")

theorem decode_failure_prevents_invocation_witness :
    inner_func false
      [(.I64, fun plugin slot => do
        let b ← input_bytes plugin slot
        failingCodec (.bytes b))]
      [] (fun m _ => .ok (m, .none)) MemState.empty [⟨.I64, .int 0⟩] [] [] =
      .error (.valueError "boom") :=
  decode_failure_prevents_invocation
    [(.I64, fun plugin slot => do
      let b ← input_bytes plugin slot
      failingCodec (.bytes b))]
    MemState.empty [⟨.I64, .int 0⟩] (.valueError "boom") rfl
    false [] (fun m _ => .ok (m, .none)) [] []

/-- **C5** (code bug): `_map_arg`/`_map_ret` do map a `float` parameter and
return to the F64 wire type, but the call path is broken: converting an F64
wire input crashes in `_convert_value` (the `x.y` slip), the F64 return
encoder crashes calling the nonexistent `Val.assign`, and `_convert_output`
cannot write an F64 output (it compares the integer tag with the enum and
falls through to "Unsupported return type"). -/
theorem float_f64_mapping_but_call_crashes :
    (∃ dec, map_arg "x" .float = .ok (.F64, dec) ∧
      ∀ plugin slot, dec plugin slot = .ok slot.value) ∧
    (∃ enc, map_ret .float = .ok [(.F64, enc)] ∧
      ∀ plugin slot q, enc plugin slot (.float q) =
        .error (.attributeError "Val" "assign")) ∧
    (∀ u : WireScalar, convert_value ⟨3, u⟩ = .error (.attributeError "ExtismVal" "y")) ∧
    (∀ (u : WireScalar) (q : Rat), convert_output ⟨3, u⟩ ⟨.F64, .float q⟩ =
      .error (.extismError "Unsupported return type: 3")) := by
  refine ⟨⟨_, rfl, fun plugin slot => rfl⟩, ⟨_, rfl, fun plugin slot q => rfl⟩,
    fun u => rfl, fun u q => ?_⟩
  rw [convert_output]
  simp only [ValType.value, intEqValType, Bool.false_eq_true, if_false]
  rw [if_neg (by decide), if_neg (by decide), if_neg (by decide)]
  rfl

/-- A host function annotated `-> typing.Tuple[str, str]` with no
parameters. -/
def tupleRetDecl : FuncDecl := ⟨[], some (.tuple [.str, .str])⟩

/-- **C1** (code bug): the spec says the trampoline destructures a tuple
return into components and hands component `i` to encoder `i`; the code
instead passes the *whole* returned value to every per-slot encoder
(`emplace(plugin, slot, result)` at `extism.py:423`).  Concretely, for a
`Tuple[str, str]` return of `("a", "b")` the first `str` encoder receives
the whole tuple and `("a", "b").encode()` raises
`AttributeError: 'tuple' object has no attribute 'encode'`, aborting the
call; with destructuring it would have received `"a"` and succeeded. -/
theorem tuple_return_not_destructured :
    ∃ sig, infer_signature tupleRetDecl = .ok sig ∧
      sig.returns.map Prod.fst = [.I64, .I64] ∧
      inner_func sig.uses_current_plugin sig.args sig.returns
        (fun m _ => .ok (m, .tuple [.str "a", .str "b"]))
        MemState.empty [] [⟨.I64, .int 0⟩, ⟨.I64, .int 0⟩] [] =
      .error (.attributeError "tuple" "encode") :=
  ⟨_, rfl, rfl, rfl⟩

/-- A host function declared `sum(a: int, b: int) -> int`. -/
def sumDecl : FuncDecl := ⟨[("a", .int), ("b", .int)], some .int⟩

def sumFn : HostFn := fun m args =>
  match args with
  | [.int a, .int b] => .ok (m, .int (a + b))
  | _ => .error (.typeError "unsupported operand type(s)")

/-- **C2** (code bug): registering `sum(a: int, b: int) -> int` and
dispatching a boundary call with wire inputs `(3, 4)` does *not* complete
successfully: the host function computes 7, but the `int` return encoder
executes `slot.assign(7)` and class `Val` defines `_assign`, not `assign`
(`extism.py:137` vs `extism.py:330`), so the call aborts with
`AttributeError` and the I64 output slot is never written. -/
theorem int_return_assign_attribute_error :
    ∃ fn, host_fn_outer [] Option.none "sum" sumDecl sumFn [] = ([fn], .ok fn) ∧
      handle_args [fn] MemState.empty [⟨1, .i64 3⟩, ⟨1, .i64 4⟩] [⟨1, .i64 0⟩]
        fn.user_data = .error (.attributeError "Val" "assign") :=
  ⟨_, rfl, rfl⟩

/-- **C6**: a leading `CurrentPlugin` parameter is excluded from the derived
wire parameter list and the live call context is prepended as the first
positional argument at every boundary invocation; a function without such a
leading parameter receives only the decoded wire arguments (plus bound user
data). -/
theorem current_plugin_param_handling :
    (∀ (cpn : String) (rest : List (String × PyAnn)) (ret : Option PyAnn)
       (sig : Signature),
      infer_signature ⟨(cpn, .currentPlugin) :: rest, ret⟩ = .ok sig →
      sig.uses_current_plugin = true ∧
      rest.mapM (fun p => map_arg p.1 p.2) = .ok sig.args ∧
      (∀ (func : HostFn) (plugin : MemState) (inputs outputs : List Val)
         (ud : List PyVal) (decoded : List PyVal),
        (sig.args.zip inputs).mapM (fun p => p.1.2 plugin p.2) = .ok decoded →
        inner_func sig.uses_current_plugin sig.args sig.returns func plugin
            inputs outputs ud =
          (do
            let mr ← func plugin (.curPlugin :: (decoded ++ ud))
            emplace_outputs sig.returns outputs mr.2 mr.1))) ∧
    (∀ (decl : FuncDecl) (sig : Signature),
      leadingCurrentPlugin decl.params = false →
      infer_signature decl = .ok sig →
      sig.uses_current_plugin = false ∧
      decl.params.mapM (fun p => map_arg p.1 p.2) = .ok sig.args ∧
      (∀ (func : HostFn) (plugin : MemState) (inputs outputs : List Val)
         (ud : List PyVal) (decoded : List PyVal),
        (sig.args.zip inputs).mapM (fun p => p.1.2 plugin p.2) = .ok decoded →
        inner_func sig.uses_current_plugin sig.args sig.returns func plugin
            inputs outputs ud =
          (do
            let mr ← func plugin (decoded ++ ud)
            emplace_outputs sig.returns outputs mr.2 mr.1))) := by
  constructor
  · intro cpn rest ret sig h
    rw [infer_signature] at h
    rw [if_neg (by simp)] at h
    have hlead : leadingCurrentPlugin ((cpn, PyAnn.currentPlugin) :: rest) = true := rfl
    rw [hlead] at h
    rw [if_pos rfl] at h
    cases hargs : rest.mapM (fun p => map_arg p.1 p.2) with
    | error e =>
      rw [show ((cpn, PyAnn.currentPlugin) :: rest).tail = rest from rfl, hargs,
        exc_bind_error] at h
      exact absurd h (by simp)
    | ok args =>
      rw [show ((cpn, PyAnn.currentPlugin) :: rest).tail = rest from rfl, hargs,
        exc_bind_ok] at h
      cases hret : infer_returns ret with
      | error e =>
        rw [show (⟨(cpn, PyAnn.currentPlugin) :: rest, ret⟩ : FuncDecl).ret = ret from rfl,
          hret, exc_bind_error] at h
        exact absurd h (by simp)
      | ok rets =>
        rw [show (⟨(cpn, PyAnn.currentPlugin) :: rest, ret⟩ : FuncDecl).ret = ret from rfl,
          hret, exc_bind_ok] at h
        have hsig : sig = ⟨true, args, rets⟩ := by
          cases h
          rfl
        subst hsig
        refine ⟨rfl, rfl, ?_⟩
        intro func plugin inputs outputs ud decoded hdec
        rw [inner_func]
        simp only []
        rw [hdec, exc_bind_ok]
        rfl
  · intro decl sig hlead h
    rw [infer_signature] at h
    by_cases hz : decl.params.length + (if decl.ret.isSome then 1 else 0) = 0
    · rw [if_pos hz] at h
      exact absurd h (by simp)
    · rw [if_neg hz, hlead] at h
      rw [if_neg (by simp)] at h
      cases hargs : decl.params.mapM (fun p => map_arg p.1 p.2) with
      | error e =>
        rw [hargs, exc_bind_error] at h
        exact absurd h (by simp)
      | ok args =>
        rw [hargs, exc_bind_ok] at h
        cases hret : infer_returns decl.ret with
        | error e =>
          rw [hret, exc_bind_error] at h
          exact absurd h (by simp)
        | ok rets =>
          rw [hret, exc_bind_ok] at h
          have hsig : sig = ⟨false, args, rets⟩ := by
            cases h
            rfl
          subst hsig
          refine ⟨rfl, rfl, ?_⟩
          intro func plugin inputs outputs ud decoded hdec
          rw [inner_func]
          simp only []
          rw [hdec, exc_bind_ok]
          rfl

/-- The signature inferred for `f(cp: CurrentPlugin, a: int)` (no return
annotation). -/
def cpSig : Signature := ⟨true, [(.I64, fun _ slot => .ok slot.value)], []⟩

/-- The signature inferred for `f(a: int)` (no return annotation). -/
def noCpSig : Signature := ⟨false, [(.I64, fun _ slot => .ok slot.value)], []⟩

/-- A host function returning its own argument list. -/
def argEcho : HostFn := fun m args => .ok (m, .list args)

theorem current_plugin_param_handling_witness :
    cpSig.uses_current_plugin = true ∧
    inner_func cpSig.uses_current_plugin cpSig.args cpSig.returns argEcho
      MemState.empty [⟨.I64, .int 5⟩] [] [.bytes [9]] =
      (do
        let mr ← argEcho MemState.empty (.curPlugin :: ([.int 5] ++ [.bytes [9]]))
        emplace_outputs cpSig.returns [] mr.2 mr.1) ∧
    noCpSig.uses_current_plugin = false ∧
    inner_func noCpSig.uses_current_plugin noCpSig.args noCpSig.returns argEcho
      MemState.empty [⟨.I64, .int 5⟩] [] [.bytes [9]] =
      (do
        let mr ← argEcho MemState.empty ([.int 5] ++ [.bytes [9]])
        emplace_outputs noCpSig.returns [] mr.2 mr.1) := by
  obtain ⟨hA, hB⟩ := current_plugin_param_handling
  have h1 := hA "cp" [("a", .int)] Option.none cpSig rfl
  have h2 := hB ⟨[("a", .int)], Option.none⟩ noCpSig rfl rfl
  exact ⟨h1.1, h1.2.2 argEcho MemState.empty [⟨.I64, .int 5⟩] [] [.bytes [9]] [.int 5] rfl,
    h2.1, h2.2.2 argEcho MemState.empty [⟨.I64, .int 5⟩] [] [.bytes [9]] [.int 5] rfl⟩

theorem mapM_map_arg_error_of_tuple (ps : List (String × PyAnn)) (pn : String)
    (ks : List PyAnn) (hm : (pn, PyAnn.tuple ks) ∈ ps) :
    ∃ e, ps.mapM (fun p => map_arg p.1 p.2) = .error e := by
  induction ps with
  | nil => cases hm
  | cons p t ih =>
    rw [List.mapM_cons]
    cases hp : map_arg p.1 p.2 with
    | error e =>
      exact ⟨e, by rw [exc_bind_error]⟩
    | ok a =>
      rcases List.mem_cons.mp hm with heq | hmem
      · subst heq
        rw [show map_arg (pn, PyAnn.tuple ks).1 (pn, PyAnn.tuple ks).2 =
          .error (.typeError ("Could not infer input type for argument " ++ pn)) from rfl] at hp
        cases hp
      · obtain ⟨e, he⟩ := ih hmem
        refine ⟨e, ?_⟩
        rw [exc_bind_ok, he, exc_bind_error]

/-- **C7**: when signature inference fails at declaration time — no type
annotations at all, or a parameter whose type has no mapping (including a
tuple type in parameter position) — the `host_fn` decorator surfaces the
error synchronously and the function is not appended to the registry: the
registry returned by the decorator is exactly the one it started with. -/
theorem failed_inference_leaves_registry_unchanged :
    (infer_signature ⟨[], Option.none⟩ = .error (.typeError
      "Host function must include Python type annotations or explicitly list arguments.")) ∧
    (∀ nm ks, map_arg nm (.tuple ks) =
      .error (.typeError ("Could not infer input type for argument " ++ nm))) ∧
    (∀ (decl : FuncDecl) (pn : String) (ks : List PyAnn),
      (pn, PyAnn.tuple ks) ∈ decl.params → ∃ e, infer_signature decl = .error e) ∧
    (∀ (registry : List RegisteredFn) (name : Option String) (funcName : String)
       (decl : FuncDecl) (func : HostFn) (user_data : List PyVal) (e : PyErr),
      registry.length < 4294967296 →
      infer_signature decl = .error e →
      host_fn_outer registry name funcName decl func user_data = (registry, .error e)) := by
  refine ⟨rfl, fun nm ks => rfl, ?_, ?_⟩
  · intro decl pn ks hm
    rw [infer_signature]
    rw [if_neg (by
      cases decl with
      | mk params ret =>
        cases params with
        | nil => cases hm
        | cons p t => simp)]
    by_cases hlead : leadingCurrentPlugin decl.params
    · rw [if_pos hlead]
      have hmem2 : (pn, PyAnn.tuple ks) ∈ decl.params.tail := by
        cases decl with
        | mk params ret =>
          cases params with
          | nil => cases hm
          | cons p t =>
            cases p with
            | mk n0 a0 =>
              cases a0 with
              | currentPlugin =>
                rcases List.mem_cons.mp hm with heq | hmem
                · cases heq
                · exact hmem
              | _ => cases hlead
      obtain ⟨e, he⟩ := mapM_map_arg_error_of_tuple _ pn ks hmem2
      exact ⟨e, by rw [he, exc_bind_error]⟩
    · rw [if_neg hlead]
      obtain ⟨e, he⟩ := mapM_map_arg_error_of_tuple _ pn ks hm
      exact ⟨e, by rw [he, exc_bind_error]⟩
  · intro registry name funcName decl func user_data e hlen hfail
    rw [host_fn_outer]
    rw [show int_to_bytes registry.length 4 = .ok (toBytesBE 4 registry.length) from by
      rw [int_to_bytes, if_pos (by norm_num; omega)]]
    rw [hfail]

theorem failed_inference_leaves_registry_unchanged_witness :
    host_fn_outer [] Option.none "f" ⟨[("x", .tuple [.int])], Option.none⟩
      (fun m _ => .ok (m, .none)) [] =
      ([], .error (.typeError "Could not infer input type for argument x")) := by
  obtain ⟨h1, h2, h3, h4⟩ := failed_inference_leaves_registry_unchanged
  exact h4 [] Option.none "f" ⟨[("x", .tuple [.int])], Option.none⟩
    (fun m _ => .ok (m, .none)) []
    (.typeError "Could not infer input type for argument x") (by norm_num) rfl

/-- **C3**: a successful registration appends the new function at the end of
the registry (index = previous length, monotonic and append-only), stores
the index as a fixed-width 4-byte big-endian suffix on the bound user data,
and at call time the shared entry point strips that suffix back off, looks
the function up at that index, and invokes it with only the remaining
payload — the invoked function never sees the index. -/
theorem host_fn_register_dispatch
    (registry : List RegisteredFn) (name : Option String) (funcName : String)
    (decl : FuncDecl) (func : HostFn) (payload : List PyVal) (fn : RegisteredFn)
    (hlen : registry.length < 4294967296)
    (hok : (host_fn_outer registry name funcName decl func payload).2 = .ok fn) :
    (host_fn_outer registry name funcName decl func payload).1 = registry ++ [fn] ∧
    fn.user_data = payload ++ [.bytes (toBytesBE 4 registry.length)] ∧
    (∀ (current : MemState) (inputs outputs : List CVal),
      handle_args (registry ++ [fn]) current inputs outputs fn.user_data =
        (do
          let inp ← inputs.mapM convert_value
          let outp ← outputs.mapM convert_value
          let mo ← fn.call current inp outp payload
          let outs ← (outputs.zip mo.2).mapM (fun cv => convert_output cv.1 cv.2)
          .ok (mo.1, outs))) := by
  have hbytes : int_to_bytes registry.length 4 = .ok (toBytesBE 4 registry.length) := by
    rw [int_to_bytes, if_pos (by norm_num; omega)]
  rw [host_fn_outer, hbytes] at hok
  cases hinf : infer_signature decl with
  | error e =>
    rw [hinf] at hok
    exact absurd hok (by simp)
  | ok sig =>
    rw [hinf] at hok
    simp only [Except.ok.injEq] at hok
    subst hok
    refine ⟨?_, rfl, ?_⟩
    · rw [host_fn_outer, hbytes, hinf]
    · intro current inputs outputs
      rw [handle_args]
      cases hin : inputs.mapM convert_value with
      | error e => rfl
      | ok inp =>
        rw [exc_bind_ok]
        cases hout : outputs.mapM convert_value with
        | error e => rfl
        | ok outp =>
          rw [exc_bind_ok]
          simp only []
          rw [List.getLast?_concat]
          simp only []
          rw [show int_from_bytes_py (.bytes (toBytesBE 4 registry.length)) =
            .ok (int_from_bytes (toBytesBE 4 registry.length)) from rfl]
          rw [exc_bind_ok]
          rw [int_from_bytes_toBytesBE 4 registry.length (by norm_num; omega)]
          rw [List.dropLast_concat]
          rw [List.getElem?_concat_length]
          rfl

/-- **C8**: for every memory-offset semantic kind — text (`str`), binary
(`bytes`), structured records (`Json`) and opaque objects (`Pickle`) —
encoding a host value with the return-position encoder (allocate guest
memory, write the serialized bytes, store the offset in the wire slot) and
then decoding that wire slot with the parameter-position decoder yields the
original value, for every representable value, including empty and
non-ASCII text and empty bytes. -/
theorem encode_decode_roundtrip :
    (∀ (m : MemState) (slot : Val) (s : String), ∃ enc dec m2 slot2,
      map_ret .str = .ok [(.I64, enc)] ∧ map_arg "x" .str = .ok (.I64, dec) ∧
      enc m slot (.str s) = .ok (m2, slot2) ∧ dec m2 slot2 = .ok (.str s)) ∧
    (∀ (m : MemState) (slot : Val) (b : List Nat), ∃ enc dec m2 slot2,
      map_ret .bytes = .ok [(.I64, enc)] ∧ map_arg "x" .bytes = .ok (.I64, dec) ∧
      enc m slot (.bytes b) = .ok (m2, slot2) ∧ dec m2 slot2 = .ok (.bytes b)) ∧
    (∀ (m : MemState) (slot : Val) (j : PyJson), ∃ enc dec m2 slot2,
      map_ret .annJson = .ok [(.I64, enc)] ∧ map_arg "x" .annJson = .ok (.I64, dec) ∧
      enc m slot j.toPyVal = .ok (m2, slot2) ∧ dec m2 slot2 = .ok j.toPyVal) ∧
    (∀ (m : MemState) (slot : Val) (o : PyObj), ∃ enc dec m2 slot2,
      map_ret .annPickle = .ok [(.I64, enc)] ∧ map_arg "x" .annPickle = .ok (.I64, dec) ∧
      enc m slot o.toPyVal = .ok (m2, slot2) ∧ dec m2 slot2 = .ok o.toPyVal) := by
  refine ⟨?_, ?_, ?_, ?_⟩
  · intro m slot s
    refine ⟨_, _, (return_bytes m slot (utf8Encode s)).1,
      (return_bytes m slot (utf8Encode s)).2, rfl, rfl, rfl, ?_⟩
    show (input_string (return_bytes m slot (utf8Encode s)).1
      (return_bytes m slot (utf8Encode s)).2).map PyVal.str = .ok (.str s)
    rw [input_string, (input_bytes_return_bytes m slot (utf8Encode s)).2, exc_bind_ok,
      utf8Decode_encode]
    rfl
  · intro m slot b
    refine ⟨_, _, (return_bytes m slot b).1, (return_bytes m slot b).2, rfl, rfl, rfl, ?_⟩
    show (input_bytes (return_bytes m slot b).1 (return_bytes m slot b).2).map PyVal.bytes =
      .ok (.bytes b)
    rw [(input_bytes_return_bytes m slot b).2]
    rfl
  · intro m slot j
    refine ⟨_, _, (return_bytes m slot (utf8Encode (json_dumps j))).1,
      (return_bytes m slot (utf8Encode (json_dumps j))).2, rfl, rfl, ?_, ?_⟩
    · show (do
        let jj ← pyToJson j.toPyVal
        return_string m slot (.str (json_dumps jj))) = .ok _
      rw [pyToJson_toPyVal, exc_bind_ok]
      rfl
    · show (do
        let s ← input_string (return_bytes m slot (utf8Encode (json_dumps j))).1
          (return_bytes m slot (utf8Encode (json_dumps j))).2
        (json_loads s).map PyJson.toPyVal) = .ok j.toPyVal
      rw [input_string, (input_bytes_return_bytes m slot (utf8Encode (json_dumps j))).2,
        exc_bind_ok, utf8Decode_encode, exc_bind_ok, json_loads_dumps]
      rfl
  · intro m slot o
    refine ⟨_, _, (return_bytes m slot (pickle_dumps o)).1,
      (return_bytes m slot (pickle_dumps o)).2, rfl, rfl, ?_, ?_⟩
    · show (do
        let oo ← pyToObj o.toPyVal
        Except.ok (return_bytes m slot (pickle_dumps oo))) = .ok _
      rw [pyToObj_toPyVal, exc_bind_ok]
    · show (do
        let b ← input_bytes (return_bytes m slot (pickle_dumps o)).1
          (return_bytes m slot (pickle_dumps o)).2
        (pickle_loads b).map PyObj.toPyVal) = .ok o.toPyVal
      rw [(input_bytes_return_bytes m slot (pickle_dumps o)).2, exc_bind_ok,
        pickle_loads_dumps]
      rfl

/-- A host function declared `f(a: int)` with no return annotation. -/
def intParamDecl : FuncDecl := ⟨[("a", .int)], Option.none⟩

theorem host_fn_register_dispatch_witness :
    ∃ fn : RegisteredFn,
      (host_fn_outer [] Option.none "f" intParamDecl argEcho [.bytes [7]]).2 = .ok fn ∧
      (host_fn_outer [] Option.none "f" intParamDecl argEcho [.bytes [7]]).1 = [] ++ [fn] ∧
      fn.user_data = [.bytes [7]] ++ [.bytes (toBytesBE 4 0)] ∧
      handle_args ([] ++ [fn]) MemState.empty [⟨1, .i64 3⟩] [] fn.user_data =
        (do
          let inp ← [(⟨1, .i64 3⟩ : CVal)].mapM convert_value
          let outp ← ([] : List CVal).mapM convert_value
          let mo ← fn.call MemState.empty inp outp [.bytes [7]]
          let outs ← (([] : List CVal).zip mo.2).mapM (fun cv => convert_output cv.1 cv.2)
          .ok (mo.1, outs)) := by
  have h := host_fn_register_dispatch [] Option.none "f" intParamDecl argEcho [.bytes [7]] _
    (by norm_num) rfl
  exact ⟨_, rfl, h.1, h.2.1, h.2.2 MemState.empty [⟨1, .i64 3⟩] []⟩
